import Mathlib

/-!
Verification development for the `astrbot_plugin_engram` memory subsystem.

This file gives a shallow embedding, in Lean 4, of the two core components of
the repository:

* the hybrid keyword+vector retrieval ranking of
  `src/core/memory_manager.py` (`_generate_query_keywords`,
  `_count_keyword_matches`, `_calc_keyword_score`, and the candidate
  filtering / RRF fusion section of `retrieve_memories`), and
* the `ProfileGuardian` of `src/services/profile_guardian.py`
  (`validate_update` and its helpers), and
* the delete-undo logic of `undo_last_delete` in
  `src/core/memory_manager.py`, with external storage effects abstracted as
  fallible atomic steps.

Numeric values that are Python floats are modelled as rationals (`ℚ`);
Python dicts are modelled as association lists; Python sets are modelled as
deduplicated lists (membership is what the verified statements use);
The stable Python sort is modelled by the stable insertion sort `sortS`.
-/

set_option maxRecDepth 8192

namespace Engram

/-! ## Stable sorting (model of Python `sorted` / `list.sort`)

`sortS keep l` sorts `l`, keeping an already-placed element `y` in front of a
newly inserted (originally earlier) element `x` exactly when `keep y x` holds.
With `keep y x := key y < key x` this is the stable ascending Python sort by
`key`; with `keep y x := key x < key y` it is the stable Python
`sort(reverse=True)`. -/

def insertS (keep : α → α → Bool) (x : α) : List α → List α
  | [] => [x]
  | y :: ys => if keep y x then y :: insertS keep x ys else x :: y :: ys

def sortS (keep : α → α → Bool) : List α → List α
  | [] => []
  | x :: xs => insertS keep x (sortS keep xs)

/-! ## Index-of (model of the rank dictionaries
`{idx: rank + 1 for rank, idx in enumerate(sorted_indices)}`; the indices
being ranked are distinct, so the dict lookup is the position in the sorted
list). -/

def idxOf (a : ℕ) : List ℕ → ℕ
  | [] => 0
  | b :: l => if b = a then 0 else idxOf a l + 1

/-! ## Association lists (model of Python dicts) -/

def aget {β : Type} (m : List (String × β)) (k : String) : Option β :=
  match m with
  | [] => none
  | (k0, v) :: r => if k0 = k then some v else aget r k

def aset {β : Type} (m : List (String × β)) (k : String) (v : β) :
    List (String × β) :=
  match m with
  | [] => [(k, v)]
  | (k0, v0) :: r => if k0 = k then (k0, v) :: r else (k0, v0) :: aset r k v

/-- Lookup `d.get(k, [])` for dicts whose values are lists. -/
def lookupL {β : Type} (m : List (String × List β)) (k : String) : List β :=
  (aget m k).getD []

/-! ## Substring containment (model of the Python `needle in haystack`) -/

def startsWithL : List Char → List Char → Bool
  | _, [] => true
  | [], _ :: _ => false
  | c :: cs, d :: ds => c = d && startsWithL cs ds

def containsSubL (needle : List Char) : List Char → Bool
  | [] => startsWithL [] needle
  | c :: t => startsWithL (c :: t) needle || containsSubL needle t

def containsSub (hay needle : String) : Bool := containsSubL needle.data hay.data

/-! ## Characters -/

def lowerChar (c : Char) : Char :=
  if 65 ≤ c.toNat ∧ c.toNat ≤ 90 then Char.ofNat (c.toNat + 32) else c

def lowerStr (s : String) : String := String.mk (s.data.map lowerChar)

/-- A CJK ideograph in the range used by the CJK character class of the
source. -/
def isCJK (c : Char) : Bool := decide (0x4e00 ≤ c.toNat ∧ c.toNat ≤ 0x9fa5)

/-- A character matched by `[a-z0-9]` (the source lowercases first). -/
def isWordCh (c : Char) : Bool :=
  decide ((97 ≤ c.toNat ∧ c.toNat ≤ 122) ∨ (48 ≤ c.toNat ∧ c.toNat ≤ 57))

/-! ## Tokenizer

Embeds the regular expressions of `memory_manager.py`: the English word
pattern (runs of `[a-z0-9]`, optionally joined once by an apostrophe, via
`engTokens` on the lowercased text) and the Chinese block pattern (maximal
CJK runs, via `cjkBlocks`), plus the n-gram enumeration used for both
queries and documents. -/

/-- Maximal prefix run of characters satisfying `p`, with the rest. -/
def takeRun (p : Char → Bool) : List Char → List Char × List Char
  | [] => ([], [])
  | c :: cs =>
    if p c then
      let r := takeRun p cs
      (c :: r.1, r.2)
    else ([], c :: cs)

/-- Findall of the English word pattern over a (pre-lowercased) character
list: maximal word-character runs, optionally extended once by an apostrophe
(code point 39) followed by another run.  The scan consumes at least one character
before each recursive call, so running it with `fuel = length` (see
`engTokens`) is exact; the fuel only makes the recursion structural, so that
concrete instances evaluate by kernel reduction. -/
def engTokensF : ℕ → List Char → List (List Char)
  | 0, _ => []
  | _ + 1, [] => []
  | fuel + 1, c :: cs =>
    if isWordCh c then
      let run := c :: (takeRun isWordCh cs).1
      match (takeRun isWordCh cs).2 with
      | [] => [run]
      | q :: rest2 =>
        if q.toNat = 39 then
          match takeRun isWordCh rest2 with
          | ([], _) => run :: engTokensF fuel (q :: rest2)
          | (r2, rest3) => (run ++ q :: r2) :: engTokensF fuel rest3
        else run :: engTokensF fuel (q :: rest2)
    else engTokensF fuel cs

def engTokens (l : List Char) : List (List Char) := engTokensF l.length l

/-- Maximal runs of characters satisfying `p` (fuelled, see `engTokensF`). -/
def runsF (p : Char → Bool) : ℕ → List Char → List (List Char)
  | 0, _ => []
  | _ + 1, [] => []
  | fuel + 1, c :: cs =>
    if p c then
      (c :: (takeRun p cs).1) :: runsF p fuel (takeRun p cs).2
    else runsF p fuel cs

def runs (p : Char → Bool) (l : List Char) : List (List Char) := runsF p l.length l

/-- Findall of the Chinese block pattern: maximal CJK-ideograph runs. -/
def cjkBlocks (l : List Char) : List (List Char) := runs isCJK l

/-- All n-grams of length `n` of a block: `block[i:i+n]` for
`i ∈ range(0, len - n + 1)` (empty when `len < n`). -/
def blockGrams (n : ℕ) (b : List Char) : List (List Char) :=
  (List.range (b.length + 1 - n)).map (fun i => (b.drop i).take n)

/-- The list `range(min_n, max_n + 1)`. -/
def nRangeList (mn mx : ℕ) : List ℕ := List.range' mn (mx + 1 - mn)

/-- All n-grams, over all CJK blocks of the text, for all gram sizes in
`[mn, mx]`; the multiset of this list is the per-document n-gram counter
(`summary_ngrams_zh` in the source). -/
def docGrams (mn mx : ℕ) (l : List Char) : List (List Char) :=
  ((cjkBlocks l).map
    (fun b => ((nRangeList mn mx).map (fun n => blockGrams n b)).flatten)).flatten

/-! ## Query keyword generation (`_generate_query_keywords`) -/

/-- Retrieval-relevant configuration, with the defaults of the source
(`keyword_ngram_min/max`, `memory_similarity_threshold`,
`enable_keyword_boost`, `enable_ngram_keyword_rank`,
`keyword_boost_weight`). -/
structure RetrievalConfig where
  ngramMin : ℕ := 2
  ngramMax : ℕ := 4
  similarityThreshold : ℚ := 3/2
  enableKeywordBoost : Bool := true
  enableNgramRank : Bool := true
  keywordWeight : ℚ := 1/2
deriving DecidableEq

/-- The clamps `min_n = max(2, cfg)`, `max_n = min(max(min_n, cfg), 6)`. -/
def clampedNgram (cfg : RetrievalConfig) : ℕ × ℕ :=
  let mn := max 2 cfg.ngramMin
  (mn, min (max mn cfg.ngramMax) 6)

def commonStopwords : List String :=
  ["a", "an", "the", "to", "of", "in", "on", "at", "is", "are", "i", "you",
   "he", "she", "it",
   "我", "你", "他", "她", "它", "这", "那", "了", "啊", "呀", "吗", "呢",
   "吧", "和", "与", "及", "就", "也"]

def protectedShortTokens : List String := ["ai", "ml", "db", "go", "c", "r"]

/-- Embeds `_generate_query_keywords`: mixed Chinese/English keyword set for a query
(the Python `set` is modelled as a deduplicated list). -/
def generateQueryKeywords (cfg : RetrievalConfig) (query : String) : List String :=
  let mn := (clampedNgram cfg).1
  let mx := (clampedNgram cfg).2
  let engKept :=
    ((engTokens (query.data.map lowerChar)).map (fun t => String.mk t)).filter
      (fun t => decide ((1 < t.length ∨ t ∈ protectedShortTokens) ∧
        t ∉ commonStopwords))
  let grams :=
    ((docGrams mn mx query.data).map (fun g => String.mk g)).filter
      (fun g => decide (g ∉ commonStopwords))
  (engKept ++ grams).dedup

/-! ## Keyword scoring (`_count_keyword_matches`, `_calc_keyword_score`) -/

/-- English tokens of a document, lowercased (the multiset behind
`summary_tokens_en`). -/
def docTokensEn (s : String) : List (List Char) := engTokens (s.data.map lowerChar)

/-- Document n-grams for the configured sizes (the multiset behind
`summary_ngrams_zh`); the source tokenizes the original (unlowered) text. -/
def docGramsZh (cfg : RetrievalConfig) (s : String) : List (List Char) :=
  docGrams (clampedNgram cfg).1 (clampedNgram cfg).2 s.data

/-- Embeds `_count_keyword_matches`: boundary-aware term frequency (Chinese keywords
by exact n-gram count, English by exact lowercase token count). -/
def countKeywordMatches (kw : String) (enToks zhGrams : List (List Char)) : ℕ :=
  if kw.data.any isCJK then zhGrams.count kw.data
  else enToks.count (kw.data.map lowerChar)

/-- Corpus statistics handed to the scorer (`total_docs`,
`keyword_doc_freq`); the document-frequency counter is modelled as a
function that is zero off its support. -/
structure CorpusStats where
  totalDocs : ℕ
  docFreq : String → ℕ

def bmK1 : ℚ := 6/5

def bmB : ℚ := 3/4

def bmAvgDocLen : ℚ := 80

/-- Embeds `_calc_keyword_score`: BM25-style saturation with approximate IDF and a
coverage bonus, over the boundary-aware term frequencies. -/
def calcKeywordScore (cfg : RetrievalConfig) (query summary : String)
    (stats : CorpusStats) : ℚ :=
  let qks := generateQueryKeywords cfg query
  if qks = [] ∨ summary = "" then 0
  else
    let enToks := docTokensEn summary
    let zhGrams := docGramsZh cfg summary
    let docLen : ℕ := max 1 (enToks.dedup.length + zhGrams.length)
    let totalDocs : ℕ := max 1 stats.totalDocs
    let acc := qks.foldl
      (fun (a : ℚ × ℕ) kw =>
        let tf := countKeywordMatches kw enToks zhGrams
        if tf = 0 then a
        else
          let normTf : ℚ :=
            ((tf : ℚ) * (bmK1 + 1)) /
              ((tf : ℚ) + bmK1 * (1 - bmB + bmB * (docLen : ℚ) / bmAvgDocLen))
          let idf : ℚ := 1 + ((totalDocs : ℚ) + 1) / ((stats.docFreq kw : ℚ) + 1)
          (a.1 + normTf * min 4 idf, a.2 + tf))
      ((0 : ℚ), (0 : ℕ))
    let coverage : ℚ := min (3/2) ((acc.2 : ℚ) / ((max 1 qks.length : ℕ) : ℚ))
    acc.1 * (1 + (3/20) * coverage)

/-! ## The lexical-scorer formula as the specification words it -/

/-- Formula `norm_tf = tf*(k1+1) / (tf + k1*(1-b+b*doclen/avg_doclen))`. -/
def specNormTf (tf docLen : ℕ) : ℚ :=
  ((tf : ℚ) * (bmK1 + 1)) /
    ((tf : ℚ) + bmK1 * (1 - bmB + bmB * (docLen : ℚ) / bmAvgDocLen))

/-- Formula `idf = 1 + (total_docs+1)/(df+1)`. -/
def specIdf (stats : CorpusStats) (kw : String) : ℚ :=
  1 + ((stats.totalDocs : ℚ) + 1) / ((stats.docFreq kw : ℚ) + 1)

/-- The score as stated by the specification: the sum over matched query
keywords of `norm_tf * min(4.0, idf)` with
`doclen = count of English tokens + total n-gram occurrences`, multiplied by
`(1 + 0.15 * coverage_bonus)`,
`coverage_bonus = min(1.5, matched_tf_sum / num_query_keywords)`. -/
def specKeywordScore (cfg : RetrievalConfig) (query summary : String)
    (stats : CorpusStats) : ℚ :=
  let qks := generateQueryKeywords cfg query
  let enToks := docTokensEn summary
  let zhGrams := docGramsZh cfg summary
  let docLen := enToks.dedup.length + zhGrams.length
  let matched := qks.filter
    (fun kw => decide (countKeywordMatches kw enToks zhGrams ≠ 0))
  let base := (matched.map (fun kw =>
    specNormTf (countKeywordMatches kw enToks zhGrams) docLen *
      min 4 (specIdf stats kw))).sum
  let mts := (matched.map (fun kw => countKeywordMatches kw enToks zhGrams)).sum
  base * (1 + (3/20) * min (3/2) ((mts : ℚ) / (qks.length : ℚ)))

/-! ## Legacy keyword scorer (`_calc_keyword_score_legacy`) -/

/-- Non-overlapping occurrence count, `haystack.count(needle)` for a
nonempty needle (fuelled structural recursion). -/
def countOccF (needle : List Char) : ℕ → List Char → ℕ
  | _, [] => 0
  | 0, _ :: _ => 0
  | fuel + 1, c :: t =>
    if startsWithL (c :: t) needle then 1 + countOccF needle fuel ((c :: t).drop needle.length)
    else countOccF needle fuel t

/-- Python `hay.count(needle)` (an empty needle counts `len + 1` slots). -/
def countOcc (hay needle : List Char) : ℕ :=
  if needle = [] then hay.length + 1 else countOccF needle hay.length hay

/-- Embeds `_calc_keyword_score_legacy`: substring containment + BM25-style TF
saturation with a keyword-length weight clamped to `[1, 3]`. -/
def legacyKeywordScore (queryKeywords : List String) (summary : String) : ℚ :=
  if queryKeywords = [] ∨ summary = "" then 0
  else
    let sLower := summary.data.map lowerChar
    let docLen : ℕ := max 1 sLower.length
    queryKeywords.foldl
      (fun (acc : ℚ) kw =>
        if containsSubL kw.data sLower then
          let tf := countOcc sLower kw.data
          let normTf : ℚ :=
            ((tf : ℚ) * (bmK1 + 1)) /
              ((tf : ℚ) + bmK1 * (1 - bmB + bmB * (docLen : ℚ) / bmAvgDocLen))
          let kwWeight : ℚ := max 1 (min 3 ((kw.length : ℚ) / 2))
          acc + normTf * kwWeight
        else acc) 0

/-! ## RRF fusion and candidate ordering (`retrieve_memories`, steps 2–4) -/

/-- The transient per-candidate record of the retrieval path. -/
structure MemItem where
  indexId : String
  summary : String
  distance : ℚ
  keywordScore : ℚ
deriving DecidableEq, Inhabited

def rrfK : ℚ := 60

def distOf (md : List MemItem) (i : ℕ) : ℚ := (md.getD i default).distance

def scoreOf (md : List MemItem) (i : ℕ) : ℚ := (md.getD i default).keywordScore

/-- The index sort of the source by ascending distance (stable). -/
def sortedByVector (md : List MemItem) : List ℕ :=
  sortS (fun i j => decide (distOf md i < distOf md j)) (List.range md.length)

/-- The index sort of the source by descending keyword score (stable). -/
def sortedByKeyword (md : List MemItem) : List ℕ :=
  sortS (fun i j => decide (scoreOf md j < scoreOf md i)) (List.range md.length)

/-- Rank map `vector_rank` (rank 1 = closest). -/
def vectorRank (md : List MemItem) (i : ℕ) : ℕ := idxOf i (sortedByVector md) + 1

/-- Rank map `keyword_rank` (rank 1 = highest lexical score). -/
def keywordRank (md : List MemItem) (i : ℕ) : ℕ := idxOf i (sortedByKeyword md) + 1

/-- Fusion score `rrf_score = vector_w/(k + vector_rank) + keyword_w/(k + keyword_rank)`
with `vector_w = 1 - keyword_boost_weight`. -/
def rrfScore (w : ℚ) (md : List MemItem) (i : ℕ) : ℚ :=
  (1 - w) / (rrfK + (vectorRank md i : ℚ)) + w / (rrfK + (keywordRank md i : ℚ))

/-- Steps 3–4 of `retrieve_memories`: RRF fusion when keyword boosting is
active (boost enabled, at least one query keyword, more than one candidate),
pure ascending-distance order with the pseudo-score `max(0, 1 - d/2)`
otherwise; then truncation to `limit`.  Each returned item is paired with
its `rrf_score`. -/
def rrfFuse (enableBoost : Bool) (queryKeywords : List String) (w : ℚ)
    (limit : ℕ) (md : List MemItem) : List (MemItem × ℚ) :=
  if enableBoost = true ∧ queryKeywords ≠ [] ∧ 1 < md.length then
    let scored := (List.range md.length).map
      (fun i => (md.getD i default, rrfScore w md i))
    (sortS (fun a b => decide (b.2 < a.2)) scored).take limit
  else
    let scored := md.map (fun m => (m, max 0 (1 - m.distance / 2)))
    (sortS (fun a b => decide (a.1.distance < b.1.distance)) scored).take limit

/-! ## Retrieval pipeline (`retrieve_memories`, candidate filtering through
ranking; the later display/enrichment steps iterate the ranked list in
order, so the head of the `retrieveRanked` result is the first returned
memory) -/

/-- One raw result row of the vector-index query (id, document, distance). -/
structure ChromaHit where
  indexId : String
  summary : String
  distance : ℚ
deriving DecidableEq

/-- Unicode word characters, as used by the split on non-word runs in the
non-n-gram keyword branch (restricted to the ASCII + CJK alphabet of this
embedding). -/
def wordishCh (c : Char) : Bool :=
  isWordCh (lowerChar c) || c.toNat = 95 || isCJK c

/-- The fallback query split: lowercased maximal word-character runs of the
query, deduplicated. -/
def simpleSplitKeywords (query : String) : List String :=
  ((runs wordishCh query.data).map (fun t => String.mk (t.map lowerChar))).dedup

/-- Per-document boundary-aware term frequency (used for the candidate-set
document-frequency statistics). -/
def docKeywordCount (cfg : RetrievalConfig) (s : String) (kw : String) : ℕ :=
  countKeywordMatches kw (docTokensEn s) (docGramsZh cfg s)

/-- Corpus statistics: `total_docs` = number of candidates, and per keyword the
number of candidate documents containing it at least once. -/
def mkCorpusStats (cfg : RetrievalConfig) (summaries : List String) : CorpusStats :=
  { totalDocs := summaries.length,
    docFreq := fun kw =>
      (summaries.filter (fun s => decide (0 < docKeywordCount cfg s kw))).length }

/-- Embeds `retrieve_memories` from the similarity pre-filter to the ranked,
truncated candidate list: filter hits by the distance threshold, generate
query keywords, score every candidate (primary n-gram scorer or legacy
scorer according to configuration), and fuse with `rrfFuse`. -/
def retrieveRanked (cfg : RetrievalConfig) (query : String)
    (hits : List ChromaHit) (limit : ℕ) : List (MemItem × ℚ) :=
  let candidates := hits.filter (fun h => decide (h.distance ≤ cfg.similarityThreshold))
  let queryKeywords :=
    if cfg.enableNgramRank then generateQueryKeywords cfg query
    else simpleSplitKeywords query
  let memoryData :=
    if cfg.enableNgramRank then
      let stats := mkCorpusStats cfg (candidates.map (fun c => c.summary))
      candidates.map (fun c =>
        { indexId := c.indexId, summary := c.summary, distance := c.distance,
          keywordScore := calcKeywordScore cfg query c.summary stats })
    else
      candidates.map (fun c =>
        { indexId := c.indexId, summary := c.summary, distance := c.distance,
          keywordScore := legacyKeywordScore queryKeywords c.summary })
  rrfFuse cfg.enableKeywordBoost queryKeywords cfg.keywordWeight limit memoryData

/-! ## Profile Guardian (`src/services/profile_guardian.py`)

Profiles are nested dicts in the source; here `basic_info` is an association
list of string fields, attribute/preference categories are association lists
of string lists, and `pending_proposals` is a list of proposal records.  The
Python sets built inside the guardian (`current_set`, `llm_suggested_set`,
`old_list`, `new_list`) are modelled as deduplicated lists; the statements
proved below are membership statements, which agree with set semantics. -/

structure GuardConfig where
  enableConfidence : Bool := true
  confidenceThreshold : ℤ := 2
  enableConflictDetection : Bool := true
  enableStrongEvidence : Bool := true
deriving DecidableEq

structure Proposal where
  category : String
  value : String
  confidence : ℤ
  firstSeen : String
  lastSeen : String
deriving DecidableEq

structure Conflict where
  ctype : String
  category : String
  oldValue : String
  newValue : String
  conflictType : String
  detail : String
deriving DecidableEq

structure SocialGraph where
  interactionStats : List (String × ℤ)
  rest : List (String × String)
deriving DecidableEq

structure Profile where
  basicInfo : List (String × String)
  attributes : List (String × List String)
  preferences : List (String × List String)
  socialGraph : SocialGraph
  pendingProposals : List Proposal
  devMetadata : Option String
  sharedSecrets : Option String
deriving DecidableEq

/-! ### Strong-evidence patterns (`STRONG_EVIDENCE_PATTERNS`)

Each regular expression of the source is embedded as a decidable matcher on
character lists; `searchL` scans every position like `re.search`.  A
`(.+?)`/`(.*)` group matches non-newline characters; alternations and
bounded repetitions become explicit existentials over the finitely many
shapes.  The patterns contain no ASCII letters, so `re.IGNORECASE` is
inert. -/

def searchL (f : List Char → Bool) : List Char → Bool
  | [] => f []
  | c :: t => f (c :: t) || searchL f t

def isDig (c : Char) : Bool := decide (48 ≤ c.toNat ∧ c.toNat ≤ 57)

def notNl (c : Char) : Bool := decide (c.toNat ≠ 10)

/-- Consume one or more non-newline characters, then one of `sufs`
(the boolean semantics of `(.+?)(suf1|suf2|...)`). -/
def midThenSuf (sufs : List (List Char)) : List Char → Bool
  | [] => false
  | c :: t => notNl c && (sufs.any (fun s => startsWithL t s) || midThenSuf sufs t)

/-- Pattern shape with an optional middle: like `midThenSuf` but the middle
may be empty. -/
def optMidThenSuf (sufs : List (List Char)) (l : List Char) : Bool :=
  sufs.any (fun s => startsWithL l s) || midThenSuf sufs l

/-- At least one non-newline character follows (`(.+)`, or `(.+?)` before an
optional group). -/
def someMid : List Char → Bool
  | [] => false
  | c :: _ => notNl c

/-- One or more digits followed by one of `sufs` (`(\d+)suf`). -/
def digitsThenSuf (sufs : List (List Char)) : List Char → Bool
  | [] => false
  | c :: t => isDig c && (sufs.any (fun s => startsWithL t s) || digitsThenSuf sufs t)

/-- Exactly `n` digits, then continue with `k`. -/
def nDigitsThen (k : List Char → Bool) : ℕ → List Char → Bool
  | 0, l => k l
  | _ + 1, [] => false
  | n + 1, c :: t => isDig c && nDigitsThen k n t

/-- One or two digits, then continue with `k` (`\d{1,2}`). -/
def d12Then (k : List Char → Bool) (l : List Char) : Bool :=
  nDigitsThen k 1 l || nDigitsThen k 2 l

def genderAlts : List (List Char) :=
  ["男".data, "女".data, "男生".data, "女生".data, "男孩子".data, "女孩子".data,
   "男人".data, "女人".data]

def genderNeg1 : List (List Char) := ["朋友".data, "票".data, "神".data, "生朋友".data]

def genderNeg2 : List (List Char) := ["朋友".data, "票".data, "神".data]

/-- Matcher at one position for the four gender patterns. -/
def genderAt (l : List Char) : Bool :=
  (startsWithL l "我是".data &&
    genderAlts.any (fun w =>
      startsWithL (l.drop 2) w &&
      !(genderNeg1.any (fun n => startsWithL ((l.drop 2).drop w.length) n))))
  || (startsWithL l "我是个".data &&
    ["男".data, "女".data].any (fun w =>
      startsWithL (l.drop 3) w &&
      !(genderNeg2.any (fun n => startsWithL ((l.drop 3).drop w.length) n))))
  || (["是", "为"].any (fun a => ["男", "女"].any (fun b =>
      startsWithL l ("我的性别" ++ a ++ b).data)))
  || (["是", "为"].any (fun a => ["男", "女"].any (fun b =>
      startsWithL l ("性别" ++ a ++ b).data)))

/-- Matcher at one position for the four age patterns. -/
def ageAt (l : List Char) : Bool :=
  (startsWithL l "我".data && digitsThenSuf ["岁".data] (l.drop 1))
  || (startsWithL l "今年".data && digitsThenSuf ["岁".data] (l.drop 2))
  || (startsWithL l "出生于".data
      && nDigitsThen (fun r => startsWithL r "年".data) 4 (l.drop 3))
  || (startsWithL l "生日".data &&
      ([[], "是".data, "为".data].any (fun o =>
        startsWithL (l.drop 2) o &&
        nDigitsThen (fun r1 =>
          ["-".data, "年".data].any (fun s1 => startsWithL r1 s1 &&
            d12Then (fun r2 =>
              ["-".data, "月".data].any (fun s2 => startsWithL r2 s2 &&
                d12Then (fun _ => true) (r2.drop 1)))
              (r1.drop 1)))
          4 ((l.drop 2).drop o.length))))

/-- Matcher at one position for the five location patterns. -/
def locationAt (l : List Char) : Bool :=
  (startsWithL l "我在".data &&
    midThenSuf ["居住".data, "生活".data, "工作".data, "上学".data, "读书".data] (l.drop 2))
  || (startsWithL l "我家在".data && someMid (l.drop 3))
  || (startsWithL l "住在".data &&
    midThenSuf ["市".data, "区".data, "县".data, "省".data] (l.drop 2))
  || (startsWithL l "我是".data &&
    midThenSuf ["人".data, "本地人".data] (l.drop 2))
  || (startsWithL l "来自".data &&
    midThenSuf ["省".data, "市".data, "区".data, "县".data] (l.drop 2))

/-- Matcher at one position for the six job patterns. -/
def jobAt (l : List Char) : Bool :=
  (startsWithL l "我是".data &&
    optMidThenSuf ["工程师".data, "程序员".data, "设计师".data, "老师".data, "医生".data,
      "学生".data, "护士".data, "警察".data, "律师".data] (l.drop 2))
  || (startsWithL l "我在".data &&
    midThenSuf ["工作".data, "上班".data, "当差".data, "服役".data] (l.drop 2))
  || (["是", "为"].any (fun a => startsWithL l ("我的职业" ++ a).data
      && someMid (l.drop 5)))
  || (startsWithL l "我做".data &&
    midThenSuf ["工作".data, "职业".data, "行业".data] (l.drop 2))
  || (startsWithL l "我是做".data && midThenSuf ["的".data] (l.drop 3))
  || (startsWithL l "当".data &&
    midThenSuf ["工程师".data, "老师".data, "医生".data, "司机".data] (l.drop 1))

/-- Embeds `_check_strong_evidence`. -/
def checkStrongEvidence (field : String) (memoryTexts : String) : Bool :=
  if field = "gender" then searchL genderAt memoryTexts.data
  else if field = "age" then searchL ageAt memoryTexts.data
  else if field = "location" then searchL locationAt memoryTexts.data
  else if field = "job" then searchL jobAt memoryTexts.data
  else false

/-! ### `_protect_basic_info` -/

def fullyProtectedFields : List String :=
  ["qq_id", "nickname", "avatar_url", "signature", "birthday", "constellation",
   "zodiac"]

def evidenceProtectedFields : List String := ["gender", "age", "location", "job"]

/-- One iteration of the fully-protected loop: keep the old value when it is
truthy and not the sentinel `未知`. -/
def protectStep1 (oldB : List (String × String)) (acc : List (String × String))
    (f : String) : List (String × String) :=
  match aget oldB f with
  | some v => if v ≠ "" ∧ v ≠ "未知" then aset acc f v else acc
  | none => acc

/-- One iteration of the evidence-protected loop: when the old value is valid
and the proposal differs, keep the old value unless the supporting text shows
strong evidence. -/
def protectStep2 (oldB newB : List (String × String)) (texts : String)
    (acc : List (String × String)) (f : String) : List (String × String) :=
  match aget oldB f with
  | some ov =>
    if ov ≠ "" ∧ ov ≠ "未知" ∧ aget newB f ≠ some ov then
      if checkStrongEvidence f texts then acc else aset acc f ov
    else acc
  | none => acc

def protectBasicInfo (cfg : GuardConfig) (oldB newB : List (String × String))
    (texts : String) : List (String × String) :=
  let step1 := fullyProtectedFields.foldl (protectStep1 oldB) newB
  if cfg.enableStrongEvidence then
    evidenceProtectedFields.foldl (protectStep2 oldB newB texts) step1
  else step1

/-! ### `_process_attributes_with_confidence` -/

def mkKey (c v : String) : String := c ++ ":" ++ v

def attrCategories : List String := ["personality_tags", "hobbies", "skills"]

/-- The proposal map: dict keyed by the category:value string, skipping
proposals with a falsy category. -/
def buildProposalMap (props : List Proposal) : List (String × Proposal) :=
  props.foldl
    (fun m p => if p.category = "" then m else aset m (mkKey p.category p.value) p) []

/-- One iteration of the inner loop over `llm_suggested_set`.  The state is
`(final_list, next_proposals, proposal_map)`; the map is threaded because the
source mutates the proposal objects it holds. -/
def attrStep (cfg : GuardConfig) (now cat : String) (currentSet : List String)
    (st : List String × List Proposal × List (String × Proposal)) (item : String) :
    List String × List Proposal × List (String × Proposal) :=
  let fl := st.1
  let np := st.2.1
  let pm := st.2.2
  if item ∈ currentSet then st
  else if cfg.enableConfidence = false then (fl ++ [item], np, pm)
  else
    match aget pm (mkKey cat item) with
    | some prop =>
      let prop2 := { prop with confidence := prop.confidence + 1, lastSeen := now }
      let pm2 := aset pm (mkKey cat item) prop2
      if cfg.confidenceThreshold ≤ prop2.confidence then (fl ++ [item], np, pm2)
      else (fl, np ++ [prop2], pm2)
    | none =>
      if 1 < cfg.confidenceThreshold then
        (fl, np ++ [Proposal.mk cat item 1 now now], pm)
      else (fl ++ [item], np, pm)

/-- One iteration of the outer loop over the three attribute categories. -/
def attrCatStep (cfg : GuardConfig) (now : String)
    (oldAttrs newAttrs : List (String × List String))
    (st : List (String × List String) × List Proposal × List (String × Proposal))
    (cat : String) :
    List (String × List String) × List Proposal × List (String × Proposal) :=
  let currentSet := (lookupL oldAttrs cat).dedup
  let llmSet := (lookupL newAttrs cat).dedup
  let inner := llmSet.foldl (attrStep cfg now cat currentSet) (currentSet, st.2.1, st.2.2)
  (st.1 ++ [(cat, inner.1)], inner.2.1, inner.2.2)

/-- One iteration of the carry-forward loop over `proposal_map.items()`. -/
def carryStep (resultAttrs : List (String × List String)) (currentKeys : List String)
    (np : List Proposal) (kp : String × Proposal) : List Proposal :=
  if kp.1 ∈ currentKeys then np
  else if kp.2.value ∈ lookupL resultAttrs kp.2.category then np
  else np ++ [kp.2]

/-- Embeds `_process_attributes_with_confidence`, returning
`(validated_attributes, next_proposals)`. -/
def processAttributes (cfg : GuardConfig) (now : String)
    (oldAttrs newAttrs : List (String × List String)) (curProps : List Proposal) :
    List (String × List String) × List Proposal :=
  let pm0 := buildProposalMap curProps
  let outer := attrCategories.foldl (attrCatStep cfg now oldAttrs newAttrs) ([], [], pm0)
  let currentKeys := outer.2.1.map (fun p => mkKey p.category p.value)
  (outer.1, outer.2.2.foldl (carryStep outer.1 currentKeys) outer.2.1)

/-! ### `_merge_preferences_with_conflict_detection` and
`_check_item_conflict` -/

def conflictPairs : List (List String × List String) :=
  [(["喜欢", "爱", "最爱", "超爱"], ["讨厌", "不喜欢", "恨", "反感", "厌恶"]),
   (["外向", "活泼", "开朗"], ["内向", "安静", "害羞"]),
   (["严谨", "认真", "细心"], ["粗心", "随意", "马虎"]),
   (["吃肉", "肉食"], ["素食", "吃素"]),
   (["猫", "养猫", "喜欢猫"], ["猫毛过敏", "对猫过敏"]),
   (["狗", "养狗", "喜欢狗"], ["狗毛过敏", "对狗过敏"])]

def allergyReferents : List String := ["猫", "狗", "花生", "海鲜", "芒果"]

/-- The loop body of `_check_item_conflict` over `CONFLICT_PAIRS` (the
allergy check of the source sits inside the loop but does not depend on the
pair). -/
def checkItemConflictLoop (ol nl : String) :
    List (List String × List String) → Option String
  | [] => none
  | (pos, neg) :: rest =>
    if ((pos.any (fun p => containsSub ol p)) && (neg.any (fun n => containsSub nl n)))
        || ((neg.any (fun n => containsSub ol n)) && (pos.any (fun p => containsSub nl p)))
      then some "sentiment_conflict"
    else if containsSub ol "过敏" && !(containsSub nl "过敏")
        && (allergyReferents.any (fun p => containsSub ol p))
        && (allergyReferents.any (fun p => containsSub nl p))
      then some "allergy_conflict"
    else checkItemConflictLoop ol nl rest

def checkItemConflict (oldItem newItem : String) : Option String :=
  checkItemConflictLoop (lowerStr oldItem) (lowerStr newItem) conflictPairs

/-- First old item conflicting with the new item (the inner loop of the
source breaks at the first conflict). -/
def findConflictOld (oldList : List String) (newItem : String) :
    Option (String × String) :=
  match oldList with
  | [] => none
  | o :: rest =>
    match checkItemConflict o newItem with
    | some t => some (o, t)
    | none => findConflictOld rest newItem

def quoteS : String := String.mk [Char.ofNat 39]

def mkConflict (category oldV newV ctype : String) : Conflict :=
  { ctype := "preference_conflict", category := category, oldValue := oldV,
    newValue := newV, conflictType := ctype,
    detail := quoteS ++ oldV ++ quoteS ++ " vs " ++ quoteS ++ newV ++ quoteS
      ++ " in " ++ category }

def prefCategories : List String :=
  ["favorite_foods", "favorite_items", "favorite_activities", "likes", "dislikes"]

/-- Set union `list(old | new)` on the set model: old items first, then new items not
already present. -/
def listUnion (a b : List String) : List String :=
  a ++ b.filter (fun x => decide (x ∉ a))

/-- One category of `_merge_preferences_with_conflict_detection`. -/
def prefCatStep (cfg : GuardConfig) (oldPrefs newPrefs : List (String × List String))
    (st : List (String × List String) × List Conflict) (cat : String) :
    List (String × List String) × List Conflict :=
  let oldList := (lookupL oldPrefs cat).dedup
  let newList := (lookupL newPrefs cat).dedup
  if cfg.enableConflictDetection = false then
    (st.1 ++ [(cat, listUnion oldList newList)], st.2)
  else
    let inner := newList.foldl
      (fun (ac : List String × List Conflict) ni =>
        match findConflictOld oldList ni with
        | some ot => (ac.1, ac.2 ++ [mkConflict cat ot.1 ni ot.2])
        | none => (ac.1 ++ [ni], ac.2)) ([], st.2)
    (st.1 ++ [(cat, listUnion oldList inner.1)], inner.2)

def mergePreferences (cfg : GuardConfig)
    (oldPrefs newPrefs : List (String × List String)) :
    List (String × List String) × List Conflict :=
  prefCategories.foldl (prefCatStep cfg oldPrefs newPrefs) ([], [])

/-! ### `validate_update` -/

/-- Embeds `validate_update`, returning `(validated_profile, conflicts)`.  Here `now` is
the timestamp string the source takes from `datetime.now().isoformat()`. -/
def validateUpdate (cfg : GuardConfig) (cur new : Profile)
    (memoryTexts now : String) : Profile × List Conflict :=
  let basic := protectBasicInfo cfg cur.basicInfo new.basicInfo memoryTexts
  let ap := processAttributes cfg now cur.attributes new.attributes cur.pendingProposals
  let pc := mergePreferences cfg cur.preferences new.preferences
  let social : SocialGraph :=
    { interactionStats :=
        if cur.socialGraph.interactionStats ≠ [] then cur.socialGraph.interactionStats
        else new.socialGraph.interactionStats,
      rest := new.socialGraph.rest }
  ({ basicInfo := basic, attributes := ap.1, preferences := pc.1,
     socialGraph := social, pendingProposals := ap.2,
     devMetadata := new.devMetadata.orElse (fun _ => cur.devMetadata),
     sharedSecrets := new.sharedSecrets.orElse (fun _ => cur.sharedSecrets) }, pc.2)

/-! ## Delete undo (`undo_last_delete` in `memory_manager.py`)

The per-user delete history `self._delete_history` is an association list
from user id to the list of delete records (most recent first).  The
external stores (SQLite summary index, vector index, raw-message archive
flags) are abstracted as a state `σ`, and each external call of the
source as an atomic fallible step `σ → Except ε σ` (it either completes,
yielding the next state, or raises, leaving the state as it was). -/

structure VectorData where
  embedding : List ℚ
  metadata : List (String × String)
  document : String

structure DeleteRecord where
  indexId : String
  summary : String
  refUuids : Option String
  prevIndexId : Option String
  sourceType : String
  userId : String
  createdAt : String
  activeScore : ℤ
  deleteRaw : Bool
  deletedUuids : List String
  vectorData : Option VectorData

/-- The external calls performed while restoring a deleted memory. -/
structure UndoOps (σ ε : Type) where
  saveMemoryIndex : DeleteRecord → σ → Except ε σ
  ensureChroma : σ → Except ε σ
  chromaAddWithEmbedding : DeleteRecord → List ℚ → σ → Except ε σ
  chromaAddRegenerated : DeleteRecord → σ → Except ε σ
  markArchived : List String → σ → Except ε σ

structure UndoOutcome (σ : Type) where
  success : Bool
  hist : List (String × List DeleteRecord)
  ext : σ

/-- Embeds `undo_last_delete`: pop the most recent delete record, restore the
SQLite index, the vector entry (using the backed-up embedding when one is
present and nonempty) and the archived flags of the raw messages; on any raised
restore step, reinsert the popped record at the front and report failure.
The archived-flag restore failure is swallowed by the source (logged only),
so a failure there still reports success. -/
def undoLastDelete {σ ε : Type} (ops : UndoOps σ ε)
    (hist : List (String × List DeleteRecord)) (uid : String) (ext : σ) :
    UndoOutcome σ :=
  match aget hist uid with
  | none => ⟨false, hist, ext⟩
  | some [] => ⟨false, hist, ext⟩
  | some (r :: rest) =>
    let popped := aset hist uid rest
    match ops.saveMemoryIndex r ext with
    | .error _ => ⟨false, aset popped uid (r :: rest), ext⟩
    | .ok s1 =>
      match ops.ensureChroma s1 with
      | .error _ => ⟨false, aset popped uid (r :: rest), s1⟩
      | .ok s2 =>
        let addResult :=
          match r.vectorData with
          | some vd =>
            if vd.embedding ≠ [] then ops.chromaAddWithEmbedding r vd.embedding s2
            else ops.chromaAddRegenerated r s2
          | none => ops.chromaAddRegenerated r s2
        match addResult with
        | .error _ => ⟨false, aset popped uid (r :: rest), s2⟩
        | .ok s3 =>
          let s4 :=
            if r.deletedUuids ≠ [] then
              match ops.markArchived r.deletedUuids s3 with
              | .ok s5 => s5
              | .error _ => s3
            else s3
          ⟨true, popped, s4⟩


/-! ## Fixtures for the claim theorems -/

/-- An empty profile (first-access state). -/
def emptyProfile : Profile := ⟨[], [], [], ⟨[], []⟩, [], none, none⟩

/-- An LLM proposal adding the hobby `跳伞` (the repository test fixture). -/
def hobbyProposalProfile : Profile :=
  ⟨[], [("hobbies", ["跳伞"])], [], ⟨[], []⟩, [], none, none⟩

def defaultRetrievalConfig : RetrievalConfig := {}

def watermelonSummaries : List String :=
  ["今天天气不错", "他在学习编程", "他养了一只猫", "他喜欢打篮球", "他说他喜欢西瓜"]

def watermelonStats : CorpusStats :=
  mkCorpusStats defaultRetrievalConfig watermelonSummaries

/-- The counterexample hit list: the matching summary is within the distance
threshold but farthest (vector rank 5). -/
def retrievalCexHits : List ChromaHit :=
  [⟨"m1", "今天天气不错", 1/10⟩, ⟨"m2", "他在学习编程", 2/10⟩,
   ⟨"m3", "他养了一只猫", 3/10⟩, ⟨"m4", "他喜欢打篮球", 4/10⟩,
   ⟨"m5", "他说他喜欢西瓜", 5/10⟩]

/-! ## Theorems -/

theorem insertS_perm (keep : α → α → Bool) (x : α) :
    ∀ l : List α, (insertS keep x l).Perm (x :: l) := by
  intro l
  induction l with
  | nil => simp [insertS]
  | cons y ys ih =>
    simp only [insertS]
    split
    · exact ((ih.cons y).trans (List.Perm.swap x y ys))
    · exact List.Perm.refl _

theorem sortS_perm (keep : α → α → Bool) : ∀ l : List α, (sortS keep l).Perm l := by
  intro l
  induction l with
  | nil => simp [sortS]
  | cons x xs ih =>
    simp only [sortS]
    exact (insertS_perm keep x (sortS keep xs)).trans (ih.cons x)

theorem mem_sortS (keep : α → α → Bool) (l : List α) (a : α) :
    a ∈ sortS keep l ↔ a ∈ l :=
  (sortS_perm keep l).mem_iff

theorem insertS_eq_cons (keep : α → α → Bool) (x : α) (l : List α)
    (h : ∀ y ∈ l, keep y x = false) : insertS keep x l = x :: l := by
  cases l with
  | nil => rfl
  | cons y ys =>
    simp only [insertS]
    rw [h y (by simp)]
    simp

/-- An element that strictly dominates every other element of the list (the
comparison never keeps anything in front of it, and it is kept in front of
everything else) ends up at the head of the stable sort. -/
theorem sortS_eq_cons_of_strict (keep : α → α → Bool) (x : α) :
    ∀ l : List α, x ∈ l → (∀ y ∈ l, keep y x = false) →
      (∀ y ∈ l, y ≠ x → keep x y = true) →
      ∃ t, sortS keep l = x :: t := by
  intro l
  induction l with
  | nil => intro h; simp at h
  | cons z zs ih =>
    intro hx h1 h2
    by_cases hz : z = x
    · subst hz
      simp only [sortS]
      refine ⟨sortS keep zs, insertS_eq_cons keep z (sortS keep zs) ?_⟩
      intro y hy
      exact h1 y (by simp [(mem_sortS keep zs y).mp hy])
    · have hx' : x ∈ zs := by
        cases hx with
        | head => exact absurd rfl hz
        | tail _ h => exact h
      obtain ⟨t, ht⟩ := ih hx' (fun y hy => h1 y (by simp [hy]))
        (fun y hy hne => h2 y (by simp [hy]) hne)
      simp only [sortS, ht, insertS]
      rw [h2 z (by simp) hz]
      exact ⟨insertS keep z t, by simp⟩

theorem idxOf_cons_self (a : ℕ) (l : List ℕ) : idxOf a (a :: l) = 0 := by
  simp [idxOf]

theorem idxOf_cons_ne (a b : ℕ) (l : List ℕ) (h : b ≠ a) :
    idxOf a (b :: l) = idxOf a l + 1 := by
  simp [idxOf, h]

theorem aget_aset_eq {β : Type} (m : List (String × β)) (k : String) (v : β) :
    aget (aset m k v) k = some v := by
  induction m with
  | nil => simp [aget, aset]
  | cons p r ih =>
    obtain ⟨k0, v0⟩ := p
    by_cases h : k0 = k
    · simp [aget, aset, h]
    · simp [aget, aset, h, ih]

theorem aget_aset_ne {β : Type} (m : List (String × β)) (k k' : String) (v : β)
    (h : k ≠ k') : aget (aset m k v) k' = aget m k' := by
  induction m with
  | nil => simp [aget, aset, h]
  | cons p r ih =>
    obtain ⟨k0, v0⟩ := p
    by_cases h0 : k0 = k
    · subst h0
      simp [aget, aset, h]
    · simp only [aset, if_neg h0]
      by_cases h1 : k0 = k'
      · simp [aget, h1]
      · simp [aget, h1, ih]

theorem aset_self {β : Type} (m : List (String × β)) (k : String) (v : β)
    (h : aget m k = some v) : aset m k v = m := by
  induction m with
  | nil => simp [aget] at h
  | cons p r ih =>
    obtain ⟨k0, v0⟩ := p
    by_cases h0 : k0 = k
    · simp only [aget, if_pos h0] at h
      simp only [aset, if_pos h0]
      cases h
      rfl
    · simp only [aget, if_neg h0] at h
      simp [aset, h0, ih h]

theorem aset_aset {β : Type} (m : List (String × β)) (k : String) (v v' : β) :
    aset (aset m k v) k v' = aset m k v' := by
  induction m with
  | nil => simp [aset]
  | cons p r ih =>
    obtain ⟨k0, v0⟩ := p
    by_cases h0 : k0 = k
    · simp [aset, h0]
    · simp [aset, h0, ih]

theorem takeRun_snd_length (p : Char → Bool) :
    ∀ l : List Char, (takeRun p l).2.length ≤ l.length := by
  intro l
  induction l with
  | nil => simp [takeRun]
  | cons c cs ih =>
    simp only [takeRun]
    split
    · exact le_trans ih (by simp)
    · simp

theorem foldl_score_eq (tf : String → ℕ) (f : String → ℚ) :
    ∀ (l : List String) (s0 : ℚ) (m0 : ℕ),
      l.foldl (fun (a : ℚ × ℕ) kw =>
          if tf kw = 0 then a else (a.1 + f kw, a.2 + tf kw)) (s0, m0)
        = (s0 + ((l.filter (fun kw => decide (tf kw ≠ 0))).map f).sum,
           m0 + ((l.filter (fun kw => decide (tf kw ≠ 0))).map tf).sum) := by
  intro l
  induction l with
  | nil => intro s0 m0; simp
  | cons kw rest ih =>
    intro s0 m0
    by_cases h : tf kw = 0
    · simp only [List.foldl_cons, if_pos h, List.filter_cons, h]
      simp [ih]
    · simp only [List.foldl_cons, if_neg h, List.filter_cons,
        decide_eq_true (show tf kw ≠ 0 from h)]
      rw [ih]
      simp [add_assoc]

theorem one_le_doclen_of_match {kw : String} {enToks zhGrams : List (List Char)}
    (h : countKeywordMatches kw enToks zhGrams ≠ 0) :
    1 ≤ enToks.dedup.length + zhGrams.length := by
  unfold countKeywordMatches at h
  split at h
  · have h1 : zhGrams.count kw.data ≤ zhGrams.length := List.count_le_length _ _
    omega
  · have h1 : enToks.count (kw.data.map lowerChar) ≤ enToks.length :=
      List.count_le_length _ _
    have h2 : enToks ≠ [] := by
      intro he
      rw [he] at h
      simp at h
    have h3 : enToks.dedup ≠ [] := by
      simpa [List.dedup_eq_nil] using h2
    have h4 : 1 ≤ enToks.dedup.length := by
      cases hd : enToks.dedup with
      | nil => exact absurd hd h3
      | cons a t => simp
    omega

/-- C3: for every query, document and corpus statistics (of a nonempty
candidate corpus), the primary keyword scorer `_calc_keyword_score` returns
exactly the sum over matched query keywords of `norm_tf * min(4.0, idf)`,
with `norm_tf = tf*(k1+1)/(tf + k1*(1-b+b*doclen/avg_doclen))` (k1=1.2,
b=0.75, avg_doclen=80, doclen = count of English tokens + total n-gram
occurrences) and `idf = 1 + (total_docs+1)/(df+1)`, the sum being multiplied
by `(1 + 0.15*coverage_bonus)` where
`coverage_bonus = min(1.5, matched_tf_sum / num_query_keywords)`. -/
theorem keyword_score_matches_spec_formula (cfg : RetrievalConfig)
    (query summary : String) (stats : CorpusStats)
    (htd : 1 ≤ stats.totalDocs) :
    calcKeywordScore cfg query summary stats
      = specKeywordScore cfg query summary stats := by
  simp only [calcKeywordScore, specKeywordScore]
  by_cases hq : generateQueryKeywords cfg query = []
  · simp [hq]
  · by_cases hs : summary = ""
    · subst hs
      have hz : docTokensEn "" = [] := rfl
      have hg : docGramsZh cfg "" = [] := rfl
      rw [if_pos (Or.inr rfl), hz, hg]
      have hm : ∀ kw : String,
          (decide (countKeywordMatches kw [] [] ≠ 0)) = false := by
        intro kw
        unfold countKeywordMatches
        split <;> simp
      simp [hm]
    · rw [if_neg (by simp [hq, hs])]
      rw [foldl_score_eq
        (fun kw => countKeywordMatches kw (docTokensEn summary) (docGramsZh cfg summary))]
      have hlen : max 1 (generateQueryKeywords cfg query).length
          = (generateQueryKeywords cfg query).length := by
        have h0 : (generateQueryKeywords cfg query).length ≠ 0 := by
          simpa [List.length_eq_zero] using hq
        omega
      have htd' : max 1 stats.totalDocs = stats.totalDocs := by omega
      by_cases hmz : (generateQueryKeywords cfg query).filter
          (fun kw => decide (countKeywordMatches kw (docTokensEn summary)
            (docGramsZh cfg summary) ≠ 0)) = []
      · rw [hmz]
        simp
      · obtain ⟨kw0, hkw0⟩ := List.exists_mem_of_ne_nil _ hmz
        have htf0 : countKeywordMatches kw0 (docTokensEn summary)
            (docGramsZh cfg summary) ≠ 0 := by
          have h1 := List.of_mem_filter hkw0
          simpa using h1
        have hdl : max 1 ((docTokensEn summary).dedup.length
            + (docGramsZh cfg summary).length)
            = (docTokensEn summary).dedup.length + (docGramsZh cfg summary).length := by
          have h2 := one_le_doclen_of_match htf0
          omega
        simp only [hdl, htd', hlen, zero_add, specNormTf, specIdf]

/-! ### Ranking lemmas (C1, C2) -/

theorem sortedByVector_cons_of_strict_min (md : List MemItem) (m : ℕ)
    (hm : m < md.length)
    (hstrict : ∀ j, j < md.length → j ≠ m → distOf md m < distOf md j) :
    ∃ t, sortedByVector md = m :: t := by
  apply sortS_eq_cons_of_strict
  · exact List.mem_range.mpr hm
  · intro y hy
    by_cases hym : y = m
    · subst hym
      exact decide_eq_false (lt_irrefl _)
    · exact decide_eq_false (lt_asymm (hstrict y (List.mem_range.mp hy) hym))
  · intro y hy hym
    exact decide_eq_true (hstrict y (List.mem_range.mp hy) hym)

theorem sortedByKeyword_cons_of_strict_max (md : List MemItem) (m : ℕ)
    (hm : m < md.length)
    (hstrict : ∀ j, j < md.length → j ≠ m → scoreOf md j < scoreOf md m) :
    ∃ t, sortedByKeyword md = m :: t := by
  apply sortS_eq_cons_of_strict
  · exact List.mem_range.mpr hm
  · intro y hy
    by_cases hym : y = m
    · subst hym
      exact decide_eq_false (lt_irrefl _)
    · exact decide_eq_false (lt_asymm (hstrict y (List.mem_range.mp hy) hym))
  · intro y hy hym
    exact decide_eq_true (hstrict y (List.mem_range.mp hy) hym)

theorem vectorRank_ranks (md : List MemItem) (m : ℕ) (hm : m < md.length)
    (hstrict : ∀ j, j < md.length → j ≠ m → distOf md m < distOf md j) :
    vectorRank md m = 1 ∧ ∀ j, j ≠ m → 2 ≤ vectorRank md j := by
  obtain ⟨t, ht⟩ := sortedByVector_cons_of_strict_min md m hm hstrict
  constructor
  · unfold vectorRank
    rw [ht, idxOf_cons_self]
  · intro j hj
    unfold vectorRank
    rw [ht, idxOf_cons_ne j m t (fun h => hj h.symm)]
    omega

theorem keywordRank_ranks (md : List MemItem) (m : ℕ) (hm : m < md.length)
    (hstrict : ∀ j, j < md.length → j ≠ m → scoreOf md j < scoreOf md m) :
    keywordRank md m = 1 ∧ ∀ j, j ≠ m → 2 ≤ keywordRank md j := by
  obtain ⟨t, ht⟩ := sortedByKeyword_cons_of_strict_max md m hm hstrict
  constructor
  · unfold keywordRank
    rw [ht, idxOf_cons_self]
  · intro j hj
    unfold keywordRank
    rw [ht, idxOf_cons_ne j m t (fun h => hj h.symm)]
    omega

/-- With positive weights, the candidate that is simultaneously strictly
closest by vector distance and strictly highest by keyword score heads the
fused, truncated list. -/
theorem rrfFuse_top (kws : List String) (w : ℚ) (limit : ℕ) (md : List MemItem)
    (m : ℕ) (hw0 : 0 < w) (hw1 : w < 1) (hlim : 1 ≤ limit) (hm : m < md.length)
    (hlen : 1 < md.length) (hkws : kws ≠ [])
    (hd : ∀ j, j < md.length → j ≠ m → distOf md m < distOf md j)
    (hs : ∀ j, j < md.length → j ≠ m → scoreOf md j < scoreOf md m) :
    (rrfFuse true kws w limit md).head?
      = some (md.getD m default, rrfScore w md m) := by
  obtain ⟨hv1, hv2⟩ := vectorRank_ranks md m hm hd
  obtain ⟨hk1, hk2⟩ := keywordRank_ranks md m hm hs
  have hrrfm : rrfScore w md m = 1 / 61 := by
    unfold rrfScore rrfK
    rw [hv1, hk1]
    push_cast
    ring
  have hlt : ∀ j, j ≠ m → rrfScore w md j < rrfScore w md m := by
    intro j hj
    have hvj : (62 : ℚ) ≤ rrfK + (vectorRank md j : ℚ) := by
      have h2 := hv2 j hj
      have h3 : (2 : ℚ) ≤ (vectorRank md j : ℚ) := by exact_mod_cast h2
      unfold rrfK
      linarith
    have hkj : (62 : ℚ) ≤ rrfK + (keywordRank md j : ℚ) := by
      have h2 := hk2 j hj
      have h3 : (2 : ℚ) ≤ (keywordRank md j : ℚ) := by exact_mod_cast h2
      unfold rrfK
      linarith
    have e1 : (1 - w) / (rrfK + (vectorRank md j : ℚ)) ≤ (1 - w) / 62 :=
      div_le_div_of_nonneg_left (by linarith) (by norm_num) hvj
    have e2 : w / (rrfK + (keywordRank md j : ℚ)) ≤ w / 62 :=
      div_le_div_of_nonneg_left (by linarith) (by norm_num) hkj
    have e3 : rrfScore w md j ≤ 1 / 62 := by
      unfold rrfScore
      have : (1 - w) / 62 + w / 62 = 1 / 62 := by ring
      linarith
    rw [hrrfm]
    have : (1 : ℚ) / 62 < 1 / 61 := by norm_num
    linarith
  unfold rrfFuse
  rw [if_pos (And.intro rfl (And.intro hkws hlen))]
  have hx : (md.getD m default, rrfScore w md m)
      ∈ (List.range md.length).map (fun i => (md.getD i default, rrfScore w md i)) :=
    List.mem_map.mpr ⟨m, List.mem_range.mpr hm, rfl⟩
  have h1 : ∀ y ∈ (List.range md.length).map
      (fun i => (md.getD i default, rrfScore w md i)),
      (decide ((md.getD m default, rrfScore w md m).2 < y.2)) = false := by
    intro y hy
    obtain ⟨j, hjr, hje⟩ := List.mem_map.mp hy
    rw [← hje]
    by_cases hjm : j = m
    · subst hjm
      exact decide_eq_false (lt_irrefl _)
    · exact decide_eq_false (lt_asymm (hlt j hjm))
  have h2 : ∀ y ∈ (List.range md.length).map
      (fun i => (md.getD i default, rrfScore w md i)),
      y ≠ (md.getD m default, rrfScore w md m) →
      (decide (y.2 < (md.getD m default, rrfScore w md m).2)) = true := by
    intro y hy hne
    obtain ⟨j, hjr, hje⟩ := List.mem_map.mp hy
    by_cases hjm : j = m
    · subst hjm
      exact absurd hje.symm hne
    · rw [← hje]
      exact decide_eq_true (hlt j hjm)
  obtain ⟨t, ht⟩ := sortS_eq_cons_of_strict
    (fun a b : MemItem × ℚ => decide (b.2 < a.2))
    (md.getD m default, rrfScore w md m) _ hx h1 h2
  show ((sortS (fun a b : MemItem × ℚ => decide (b.2 < a.2))
      ((List.range md.length).map (fun i => (md.getD i default, rrfScore w md i)))).take
        limit).head?
    = some (md.getD m default, rrfScore w md m)
  rw [ht]
  cases limit with
  | zero => omega
  | succ n => rfl

/-- C2: when at least two candidates survive the pre-filter, keyword boosting
is enabled and the query produced at least one keyword, the ranker sorts
descending by `rrf = (1-w)/(60+vector_rank) + w/(60+keyword_rank)` and
truncates to the limit, where the vector rank is 1 for a strictly closest
candidate and the keyword rank is 1 for a strictly highest-scoring one;
otherwise it orders by ascending vector distance with the pseudo-score
`max(0, 1 - distance/2)`, truncated to the limit. -/
theorem rrf_hybrid_ranking (boost : Bool) (kws : List String) (w : ℚ)
    (limit : ℕ) (md : List MemItem) :
    ((boost = true ∧ kws ≠ [] ∧ 2 ≤ md.length) →
      rrfFuse boost kws w limit md
        = (sortS (fun a b => decide (b.2 < a.2))
            ((List.range md.length).map (fun i => (md.getD i default,
              (1 - w) / (60 + (vectorRank md i : ℚ))
                + w / (60 + (keywordRank md i : ℚ)))))).take limit)
    ∧ (¬(boost = true ∧ kws ≠ [] ∧ 2 ≤ md.length) →
      rrfFuse boost kws w limit md
        = (sortS (fun a b => decide (a.1.distance < b.1.distance))
            (md.map (fun x => (x, max 0 (1 - x.distance / 2))))).take limit)
    ∧ (∀ i, i < md.length → (∀ j, j < md.length → j ≠ i → distOf md i < distOf md j) →
        vectorRank md i = 1)
    ∧ (∀ i, i < md.length → (∀ j, j < md.length → j ≠ i → scoreOf md j < scoreOf md i) →
        keywordRank md i = 1) := by
  refine ⟨?_, ?_, ?_, ?_⟩
  · intro hc
    have hc2 : boost = true ∧ kws ≠ [] ∧ 1 < md.length := hc
    unfold rrfFuse
    rw [if_pos hc2]
    simp only [rrfScore, rrfK]
  · intro hc
    have hc2 : ¬(boost = true ∧ kws ≠ [] ∧ 1 < md.length) := hc
    unfold rrfFuse
    rw [if_neg hc2]
  · intro i hi hstrict
    exact (vectorRank_ranks md i hi hstrict).1
  · intro i hi hstrict
    exact (keywordRank_ranks md i hi hstrict).1


/-! ### Guardian: basic-info protection lemmas -/

theorem protectStep1_ne (oldB acc : List (String × String)) (g f : String)
    (h : g ≠ f) : aget (protectStep1 oldB acc g) f = aget acc f := by
  unfold protectStep1
  cases aget oldB g with
  | none => rfl
  | some v =>
    by_cases hv : v ≠ "" ∧ v ≠ "未知"
    · simp only [if_pos hv]
      exact aget_aset_ne acc g f v h
    · simp only [if_neg hv]

theorem protectStep1_foldl_not_mem (oldB : List (String × String)) :
    ∀ (l : List String) (acc : List (String × String)) (f : String), f ∉ l →
      aget (l.foldl (protectStep1 oldB) acc) f = aget acc f := by
  intro l
  induction l with
  | nil => intro acc f _; rfl
  | cons g rest ih =>
    intro acc f hf
    simp only [List.foldl_cons]
    rw [ih (protectStep1 oldB acc g) f (fun h => hf (List.mem_cons_of_mem g h))]
    exact protectStep1_ne oldB acc g f (fun h => hf (h ▸ List.mem_cons_self g rest))

theorem protectStep1_foldl_mem (oldB : List (String × String)) :
    ∀ (l : List String) (acc : List (String × String)) (f v : String),
      aget oldB f = some v → v ≠ "" → v ≠ "未知" → f ∈ l →
      aget (l.foldl (protectStep1 oldB) acc) f = some v := by
  intro l
  induction l with
  | nil => intro acc f v _ _ _ hf; simp at hf
  | cons g rest ih =>
    intro acc f v hv h1 h2 hf
    simp only [List.foldl_cons]
    by_cases hrest : f ∈ rest
    · exact ih _ f v hv h1 h2 hrest
    · have hg : g = f := by
        cases hf with
        | head => rfl
        | tail _ h => exact absurd h hrest
      subst hg
      rw [protectStep1_foldl_not_mem oldB rest _ g hrest]
      simp only [protectStep1, hv]
      rw [if_pos (And.intro h1 h2)]
      exact aget_aset_eq acc g v

theorem protectStep2_ne (oldB newB : List (String × String)) (texts : String)
    (acc : List (String × String)) (g f : String) (h : g ≠ f) :
    aget (protectStep2 oldB newB texts acc g) f = aget acc f := by
  unfold protectStep2
  cases aget oldB g with
  | none => rfl
  | some ov =>
    by_cases hc : ov ≠ "" ∧ ov ≠ "未知" ∧ aget newB g ≠ some ov
    · simp only [if_pos hc]
      by_cases he : checkStrongEvidence g texts
      · simp only [if_pos he]
      · simp only [if_neg he]
        exact aget_aset_ne acc g f ov h
    · simp only [if_neg hc]

theorem protectStep2_foldl_not_mem (oldB newB : List (String × String))
    (texts : String) :
    ∀ (l : List String) (acc : List (String × String)) (f : String), f ∉ l →
      aget (l.foldl (protectStep2 oldB newB texts) acc) f = aget acc f := by
  intro l
  induction l with
  | nil => intro acc f _; rfl
  | cons g rest ih =>
    intro acc f hf
    simp only [List.foldl_cons]
    rw [ih _ f (fun h => hf (List.mem_cons_of_mem g h))]
    exact protectStep2_ne oldB newB texts acc g f
      (fun h => hf (h ▸ List.mem_cons_self g rest))

theorem protectBasicInfo_fully_protected (cfg : GuardConfig)
    (oldB newB : List (String × String)) (texts : String) (f v : String)
    (hf : f ∈ fullyProtectedFields) (hv : aget oldB f = some v)
    (h1 : v ≠ "") (h2 : v ≠ "未知") :
    aget (protectBasicInfo cfg oldB newB texts) f = some v := by
  have hfe : f ∉ evidenceProtectedFields := by
    fin_cases hf <;> decide
  unfold protectBasicInfo
  have hstep1 : aget (fullyProtectedFields.foldl (protectStep1 oldB) newB) f = some v :=
    protectStep1_foldl_mem oldB fullyProtectedFields newB f v hv h1 h2 hf
  by_cases he : cfg.enableStrongEvidence
  · simp only [if_pos he]
    rw [protectStep2_foldl_not_mem oldB newB texts evidenceProtectedFields _ f hfe]
    exact hstep1
  · simp only [if_neg he]
    exact hstep1

/-- C4: for every current profile whose `basic_info` value for a field among
`qq_id, nickname, avatar_url, signature, birthday, constellation, zodiac` is
non-empty and not the sentinel `unknown`/`未知`, and for every LLM-proposed
profile, `validate_update` returns a profile whose value for that field
equals the current value (any proposed value is overridden back). -/
theorem guardian_fully_protected_fields (cfg : GuardConfig) (cur new : Profile)
    (texts now : String) (f v : String) (hf : f ∈ fullyProtectedFields)
    (hv : aget cur.basicInfo f = some v) (h1 : v ≠ "") (h2 : v ≠ "unknown")
    (h3 : v ≠ "未知") :
    aget (validateUpdate cfg cur new texts now).1.basicInfo f = some v := by
  have hb : (validateUpdate cfg cur new texts now).1.basicInfo
      = protectBasicInfo cfg cur.basicInfo new.basicInfo texts := rfl
  rw [hb]
  exact protectBasicInfo_fully_protected cfg cur.basicInfo new.basicInfo texts f v hf hv h1 h3

/-- C4 witness: old nickname `Alice`, proposed nickname `Bob`; the validated
nickname is `Alice` again. -/
theorem guardian_fully_protected_fields_witness :
    aget (validateUpdate {} ⟨[("nickname", "Alice")], [], [], ⟨[], []⟩, [], none, none⟩
      ⟨[("nickname", "Bob")], [], [], ⟨[], []⟩, [], none, none⟩ "" "t").1.basicInfo
      "nickname" = some "Alice" :=
  guardian_fully_protected_fields {} _ _ "" "t" "nickname" "Alice"
    (by decide) (by decide) (by decide) (by decide) (by decide)

/-- C5: with current gender `男`, proposed gender `女`, supporting text
`我是男朋友`, and strong-evidence protection enabled, the validated gender is
still `男` — the confounder does not satisfy the gender evidence patterns. -/
theorem guardian_gender_confounder (cfg : GuardConfig) (cur new : Profile)
    (now : String) (he : cfg.enableStrongEvidence = true)
    (hold : aget cur.basicInfo "gender" = some "男")
    (hnew : aget new.basicInfo "gender" = some "女") :
    aget (validateUpdate cfg cur new "我是男朋友" now).1.basicInfo "gender"
      = some "男" := by
  have hb : (validateUpdate cfg cur new "我是男朋友" now).1.basicInfo
      = protectBasicInfo cfg cur.basicInfo new.basicInfo "我是男朋友" := rfl
  rw [hb]
  unfold protectBasicInfo
  rw [if_pos he]
  have hg : "gender" ∉ fullyProtectedFields := by decide
  have hstep1 : aget (fullyProtectedFields.foldl (protectStep1 cur.basicInfo)
      new.basicInfo) "gender" = aget new.basicInfo "gender" :=
    protectStep1_foldl_not_mem cur.basicInfo fullyProtectedFields new.basicInfo "gender" hg
  simp only [evidenceProtectedFields, List.foldl_cons, List.foldl_nil]
  rw [protectStep2_ne _ _ _ _ "job" "gender" (by decide),
    protectStep2_ne _ _ _ _ "location" "gender" (by decide),
    protectStep2_ne _ _ _ _ "age" "gender" (by decide)]
  simp only [protectStep2, hold]
  rw [if_pos (And.intro (by decide) (And.intro (by decide) (by rw [hnew]; decide)))]
  rw [if_neg (by decide)]
  exact aget_aset_eq _ "gender" "男"

/-- C5 witness: concrete profiles carrying exactly the scenario. -/
theorem guardian_gender_confounder_witness :
    aget (validateUpdate {} ⟨[("gender", "男")], [], [], ⟨[], []⟩, [], none, none⟩
      ⟨[("gender", "女")], [], [], ⟨[], []⟩, [], none, none⟩ "我是男朋友" "t").1.basicInfo
      "gender" = some "男" :=
  guardian_gender_confounder {} _ _ "t" (by decide) (by decide) (by decide)

/-! ### Guardian: confidence promotion (C6) fixtures -/

/-- C6: with threshold 2, a first-time hobby proposal enters
`pending_proposals` at confidence 1 and is not added to the attributes;
re-proposing it in the next `validate_update` cycle increments the
confidence to 2, promotes it into the confirmed hobbies and removes it from
`pending_proposals`; with threshold 1 a first-time proposal is confirmed
immediately without entering `pending_proposals`. -/
theorem guardian_confidence_promotion :
    ((validateUpdate {} emptyProfile hobbyProposalProfile "" "t1").1.pendingProposals.map
        (fun p => (p.category, p.value, p.confidence)) = [("hobbies", "跳伞", 1)]
      ∧ "跳伞" ∉ lookupL (validateUpdate {} emptyProfile hobbyProposalProfile
          "" "t1").1.attributes "hobbies")
    ∧ ("跳伞" ∈ lookupL (validateUpdate {}
          (validateUpdate {} emptyProfile hobbyProposalProfile "" "t1").1
          hobbyProposalProfile "" "t2").1.attributes "hobbies"
      ∧ (validateUpdate {}
          (validateUpdate {} emptyProfile hobbyProposalProfile "" "t1").1
          hobbyProposalProfile "" "t2").1.pendingProposals = [])
    ∧ ("跳伞" ∈ lookupL (validateUpdate ⟨true, 1, true, true⟩ emptyProfile
          hobbyProposalProfile "" "t1").1.attributes "hobbies"
      ∧ (validateUpdate ⟨true, 1, true, true⟩ emptyProfile hobbyProposalProfile
          "" "t1").1.pendingProposals = []) := by
  decide

/-- C7: with conflict detection enabled, old `likes = ["喜欢猫"]` and proposed
`likes = ["讨厌猫"]`, `validate_update` keeps the old item, drops the new
item, and appends exactly one conflict record carrying the category, the two
values and the conflict type `sentiment_conflict`; it is a total function (it
never raises) and never merges the contradictory item. -/
theorem guardian_preference_conflict (cfg : GuardConfig) (cur new : Profile)
    (texts now : String) (hc : cfg.enableConflictDetection = true)
    (hcur : cur.preferences = [("likes", ["喜欢猫"])])
    (hnew : new.preferences = [("likes", ["讨厌猫"])]) :
    lookupL (validateUpdate cfg cur new texts now).1.preferences "likes" = ["喜欢猫"]
    ∧ "讨厌猫" ∉ lookupL (validateUpdate cfg cur new texts now).1.preferences "likes"
    ∧ (validateUpdate cfg cur new texts now).2.map
        (fun c => (c.ctype, c.category, c.oldValue, c.newValue, c.conflictType))
      = [("preference_conflict", "likes", "喜欢猫", "讨厌猫", "sentiment_conflict")] := by
  have hp : (validateUpdate cfg cur new texts now).1.preferences
      = (mergePreferences cfg cur.preferences new.preferences).1 := rfl
  have hcf : (validateUpdate cfg cur new texts now).2
      = (mergePreferences cfg cur.preferences new.preferences).2 := rfl
  rw [hp, hcf, hcur, hnew]
  simp only [mergePreferences, prefCategories, List.foldl_cons, List.foldl_nil,
    prefCatStep, hc]
  norm_num
  decide

/-! ### Guardian: proposed/confirmed mutual exclusion (C8) -/

theorem mem_aset {β : Type} (m : List (String × β)) (k : String) (v : β)
    (kp : String × β) (h : kp ∈ aset m k v) : kp = (k, v) ∨ kp ∈ m := by
  induction m with
  | nil => simpa [aset] using h
  | cons p r ih =>
    obtain ⟨k0, v0⟩ := p
    by_cases h0 : k0 = k
    · subst h0
      rw [show aset ((k0, v0) :: r) k0 v = (k0, v) :: r by simp [aset]] at h
      rcases List.mem_cons.mp h with h | h
      · exact Or.inl h
      · exact Or.inr (List.mem_cons_of_mem _ h)
    · rw [show aset ((k0, v0) :: r) k v = (k0, v0) :: aset r k v by simp [aset, h0]] at h
      rcases List.mem_cons.mp h with h | h
      · exact Or.inr (by simp [h])
      · rcases ih h with h1 | h1
        · exact Or.inl h1
        · exact Or.inr (List.mem_cons_of_mem _ h1)

theorem aget_mem {β : Type} (m : List (String × β)) (k : String) (v : β)
    (h : aget m k = some v) : (k, v) ∈ m := by
  induction m with
  | nil => simp [aget] at h
  | cons p r ih =>
    obtain ⟨k0, v0⟩ := p
    by_cases h0 : k0 = k
    · subst h0
      rw [show aget ((k0, v0) :: r) k0 = some v0 by simp [aget]] at h
      cases h
      exact List.mem_cons_self _ _
    · rw [show aget ((k0, v0) :: r) k = aget r k by simp [aget, h0]] at h
      exact List.mem_cons_of_mem _ (ih h)

theorem string_ext {a b : String} (h : a.data = b.data) : a = b := by
  cases a
  cases b
  exact congrArg String.mk h

theorem data_append (a b : String) : (a ++ b).data = a.data ++ b.data := by
  cases a
  cases b
  rfl

theorem append_colon_inj :
    ∀ (la lb lc ld : List Char), ':' ∉ la → ':' ∉ lc →
      la ++ ':' :: lb = lc ++ ':' :: ld → la = lc ∧ lb = ld := by
  intro la
  induction la with
  | nil =>
    intro lb lc ld _ hc h
    cases lc with
    | nil => simpa using h
    | cons c cs =>
      simp only [List.nil_append, List.cons_append, List.cons.injEq] at h
      exact absurd (by rw [h.1]; exact List.mem_cons_self c cs) hc
  | cons a as ih =>
    intro lb lc ld ha hc h
    cases lc with
    | nil =>
      simp only [List.cons_append, List.nil_append, List.cons.injEq] at h
      exact absurd (by rw [← h.1]; exact List.mem_cons_self a as) ha
    | cons c cs =>
      simp only [List.cons_append, List.cons.injEq] at h
      obtain ⟨h1, h2⟩ := h
      obtain ⟨h3, h4⟩ := ih lb cs ld
        (fun hm => ha (List.mem_cons_of_mem a hm))
        (fun hm => hc (List.mem_cons_of_mem c hm)) h2
      exact ⟨by rw [h1, h3], h4⟩

theorem mkKey_data (a b : String) : (mkKey a b).data = a.data ++ ':' :: b.data := by
  have h1 : (mkKey a b).data = a.data ++ (":" : String).data ++ b.data := by
    simp [mkKey, data_append]
  rw [h1]
  have h2 : (":" : String).data = [':'] := rfl
  rw [h2]
  simp

theorem mkKey_inj {a b c d : String} (ha : ':' ∉ a.data) (hc : ':' ∉ c.data)
    (h : mkKey a b = mkKey c d) : a = c ∧ b = d := by
  have hdata : a.data ++ ':' :: b.data = c.data ++ ':' :: d.data := by
    have h2 := congrArg String.data h
    rwa [mkKey_data, mkKey_data] at h2
  obtain ⟨h3, h4⟩ := append_colon_inj a.data b.data c.data d.data ha hc hdata
  exact ⟨string_ext h3, string_ext h4⟩

theorem attrCategories_colon_free : ∀ c ∈ attrCategories, ':' ∉ c.data := by
  decide

theorem buildProposalMap_inv (props : List Proposal) :
    ∀ kp ∈ buildProposalMap props, kp.1 = mkKey kp.2.category kp.2.value := by
  unfold buildProposalMap
  suffices h : ∀ (l : List Proposal) (m0 : List (String × Proposal)),
      (∀ kp ∈ m0, kp.1 = mkKey kp.2.category kp.2.value) →
      ∀ kp ∈ l.foldl
        (fun m p => if p.category = "" then m else aset m (mkKey p.category p.value) p) m0,
        kp.1 = mkKey kp.2.category kp.2.value by
    exact h props [] (by simp)
  intro l
  induction l with
  | nil => intro m0 hm0; simpa using hm0
  | cons p rest ih =>
    intro m0 hm0
    simp only [List.foldl_cons]
    apply ih
    by_cases hp : p.category = ""
    · simpa [hp] using hm0
    · simp only [if_neg hp]
      intro kp hkp
      rcases mem_aset m0 (mkKey p.category p.value) p kp hkp with h | h
      · simp [h]
      · exact hm0 kp h


theorem attrStep_cases (cfg : GuardConfig) (now cat : String)
    (currentSet fl0 : List String) (np0 : List Proposal)
    (pm0 : List (String × Proposal)) (item : String)
    (hpm : ∀ kp ∈ pm0, kp.1 = mkKey kp.2.category kp.2.value) :
    (∃ pm1, attrStep cfg now cat currentSet (fl0, np0, pm0) item
        = (fl0 ++ [item], np0, pm1)
      ∧ (∀ kp ∈ pm1, kp.1 = mkKey kp.2.category kp.2.value))
    ∨ attrStep cfg now cat currentSet (fl0, np0, pm0) item = (fl0, np0, pm0)
    ∨ (∃ q pm1, attrStep cfg now cat currentSet (fl0, np0, pm0) item
        = (fl0, np0 ++ [q], pm1)
      ∧ (∀ kp ∈ pm1, kp.1 = mkKey kp.2.category kp.2.value)
      ∧ mkKey q.category q.value = mkKey cat item ∧ item ∉ currentSet) := by
  by_cases hmem : item ∈ currentSet
  · exact Or.inr (Or.inl (by simp [attrStep, hmem]))
  · by_cases hconf : cfg.enableConfidence = false
    · exact Or.inl ⟨pm0, by simp [attrStep, hmem, hconf], hpm⟩
    · cases hget : aget pm0 (mkKey cat item) with
      | some prop =>
        have hkey : mkKey cat item = mkKey prop.category prop.value :=
          hpm (mkKey cat item, prop) (aget_mem pm0 (mkKey cat item) prop hget)
        have hpm1 : ∀ kp ∈ aset pm0 (mkKey cat item)
            { prop with confidence := prop.confidence + 1, lastSeen := now },
            kp.1 = mkKey kp.2.category kp.2.value := by
          intro kp hkp
          rcases mem_aset pm0 (mkKey cat item) _ kp hkp with h | h
          · rw [h]
            exact hkey
          · exact hpm kp h
        by_cases hth : cfg.confidenceThreshold ≤ prop.confidence + 1
        · refine Or.inl ⟨_, ?_, hpm1⟩
          simp [attrStep, hmem, hconf, hget, hth]
        · refine Or.inr (Or.inr
            ⟨{ prop with confidence := prop.confidence + 1, lastSeen := now },
             _, ?_, hpm1, ?_, hmem⟩)
          · simp [attrStep, hmem, hconf, hget, hth]
          · simpa using hkey.symm
      | none =>
        by_cases hth : 1 < cfg.confidenceThreshold
        · refine Or.inr (Or.inr ⟨Proposal.mk cat item 1 now now, pm0, ?_, hpm, rfl, hmem⟩)
          simp [attrStep, hmem, hconf, hget, hth]
        · refine Or.inl ⟨pm0, ?_, hpm⟩
          simp [attrStep, hmem, hconf, hget, hth]

theorem attrStep_foldl_inv (cfg : GuardConfig) (now cat : String)
    (currentSet : List String) :
    ∀ (l : List String) (fl0 : List String) (np0 : List Proposal)
      (pm0 : List (String × Proposal)),
      l.Nodup →
      (∀ x ∈ l, x ∉ currentSet → x ∉ fl0) →
      (∀ kp ∈ pm0, kp.1 = mkKey kp.2.category kp.2.value) →
      (∀ kp ∈ (l.foldl (attrStep cfg now cat currentSet) (fl0, np0, pm0)).2.2,
          kp.1 = mkKey kp.2.category kp.2.value)
      ∧ (∀ x ∈ (l.foldl (attrStep cfg now cat currentSet) (fl0, np0, pm0)).1,
          x ∈ fl0 ∨ x ∈ l)
      ∧ (∀ q ∈ (l.foldl (attrStep cfg now cat currentSet) (fl0, np0, pm0)).2.1,
          q ∈ np0 ∨ ∃ item, item ∈ l ∧ item ∉ currentSet
            ∧ mkKey q.category q.value = mkKey cat item
            ∧ item ∉ (l.foldl (attrStep cfg now cat currentSet) (fl0, np0, pm0)).1) := by
  intro l
  induction l with
  | nil =>
    intro fl0 np0 pm0 _ _ hpm
    exact ⟨hpm, fun x hx => Or.inl hx, fun q hq => Or.inl hq⟩
  | cons item rest ih =>
    intro fl0 np0 pm0 hnd hpre hpm
    have hnd1 : rest.Nodup := (List.nodup_cons.mp hnd).2
    have hitem : item ∉ rest := (List.nodup_cons.mp hnd).1
    have hfold : (item :: rest).foldl (attrStep cfg now cat currentSet) (fl0, np0, pm0)
        = rest.foldl (attrStep cfg now cat currentSet)
            (attrStep cfg now cat currentSet (fl0, np0, pm0) item) := rfl
    rcases attrStep_cases cfg now cat currentSet fl0 np0 pm0 item hpm with
      ⟨pm1, heq, hpm1⟩ | heq | ⟨q0, pm1, heq, hpm1, hkey0, hnotin0⟩
    · -- head appended item to final_list
      have hpre1 : ∀ x ∈ rest, x ∉ currentSet → x ∉ fl0 ++ [item] := by
        intro x hx hcs
        simp only [List.mem_append, List.mem_singleton]
        rintro (h | h)
        · exact hpre x (List.mem_cons_of_mem item hx) hcs h
        · exact hitem (h ▸ hx)
      obtain ⟨ih1, ih2, ih3⟩ := ih (fl0 ++ [item]) np0 pm1 hnd1 hpre1 hpm1
      rw [hfold, heq]
      refine ⟨ih1, ?_, ?_⟩
      · intro x hx
        rcases ih2 x hx with h | h
        · rcases List.mem_append.mp h with h | h
          · exact Or.inl h
          · exact Or.inr (by rw [List.mem_singleton.mp h]; exact List.mem_cons_self item rest)
        · exact Or.inr (List.mem_cons_of_mem item h)
      · intro q hq
        rcases ih3 q hq with h | ⟨it, hit, hcs, hk, hfin⟩
        · exact Or.inl h
        · exact Or.inr ⟨it, List.mem_cons_of_mem item hit, hcs, hk, hfin⟩
    · -- head skipped (item already confirmed)
      have hpre1 : ∀ x ∈ rest, x ∉ currentSet → x ∉ fl0 :=
        fun x hx => hpre x (List.mem_cons_of_mem item hx)
      obtain ⟨ih1, ih2, ih3⟩ := ih fl0 np0 pm0 hnd1 hpre1 hpm
      rw [hfold, heq]
      refine ⟨ih1, ?_, ?_⟩
      · intro x hx
        rcases ih2 x hx with h | h
        · exact Or.inl h
        · exact Or.inr (List.mem_cons_of_mem item h)
      · intro q hq
        rcases ih3 q hq with h | ⟨it, hit, hcs, hk, hfin⟩
        · exact Or.inl h
        · exact Or.inr ⟨it, List.mem_cons_of_mem item hit, hcs, hk, hfin⟩
    · -- head appended a pending proposal
      have hpre1 : ∀ x ∈ rest, x ∉ currentSet → x ∉ fl0 :=
        fun x hx => hpre x (List.mem_cons_of_mem item hx)
      obtain ⟨ih1, ih2, ih3⟩ := ih fl0 (np0 ++ [q0]) pm1 hnd1 hpre1 hpm1
      rw [hfold, heq]
      refine ⟨ih1, ?_, ?_⟩
      · intro x hx
        rcases ih2 x hx with h | h
        · exact Or.inl h
        · exact Or.inr (List.mem_cons_of_mem item h)
      · intro q hq
        rcases ih3 q hq with h | ⟨it, hit, hcs, hk, hfin⟩
        · rcases List.mem_append.mp h with h | h
          · exact Or.inl h
          · have hq0 : q = q0 := List.mem_singleton.mp h
            subst hq0
            refine Or.inr ⟨item, List.mem_cons_self item rest, hnotin0, hkey0, ?_⟩
            intro hbad
            rcases ih2 item hbad with h1 | h1
            · exact hpre item (List.mem_cons_self item rest) hnotin0 h1
            · exact hitem h1
        · exact Or.inr ⟨it, List.mem_cons_of_mem item hit, hcs, hk, hfin⟩

theorem carryStep_foldl_good (ra : List (String × List String)) (keys : List String) :
    ∀ (pml : List (String × Proposal)) (np0 : List Proposal),
      (∀ q ∈ np0, q.value ∉ lookupL ra q.category) →
      ∀ q ∈ pml.foldl (carryStep ra keys) np0, q.value ∉ lookupL ra q.category := by
  intro pml
  induction pml with
  | nil => intro np0 h0; simpa using h0
  | cons kp rest ih =>
    intro np0 h0
    simp only [List.foldl_cons]
    apply ih
    unfold carryStep
    by_cases h1 : kp.1 ∈ keys
    · simpa [h1] using h0
    · by_cases h2 : kp.2.value ∈ lookupL ra kp.2.category
      · simpa [h1, h2] using h0
      · simp only [if_neg h1, if_neg h2]
        intro q hq
        rcases List.mem_append.mp hq with h | h
        · exact h0 q h
        · rw [List.mem_singleton.mp h]
          exact h2

/-- The mutual-exclusion invariant of `_process_attributes_with_confidence`:
no proposal in the returned `pending_proposals` has its value confirmed in
the returned attribute list of its own (attribute) category. -/
theorem processAttributes_exclusive (cfg : GuardConfig) (now : String)
    (oldAttrs newAttrs : List (String × List String)) (curProps : List Proposal) :
    ∀ q ∈ (processAttributes cfg now oldAttrs newAttrs curProps).2,
      q.category ∈ attrCategories →
      q.value ∉ lookupL (processAttributes cfg now oldAttrs newAttrs curProps).1
        q.category := by
  have hpm0 := buildProposalMap_inv curProps
  -- name the three inner folds
  set pm0 := buildProposalMap curProps with hpm0def
  set cs1 := (lookupL oldAttrs "personality_tags").dedup with hcs1
  set llm1 := (lookupL newAttrs "personality_tags").dedup with hllm1
  set I1 := llm1.foldl (attrStep cfg now "personality_tags" cs1)
    (cs1, ([] : List Proposal), pm0) with hI1
  set cs2 := (lookupL oldAttrs "hobbies").dedup with hcs2
  set llm2 := (lookupL newAttrs "hobbies").dedup with hllm2
  set I2 := llm2.foldl (attrStep cfg now "hobbies" cs2) (cs2, I1.2.1, I1.2.2) with hI2
  set cs3 := (lookupL oldAttrs "skills").dedup with hcs3
  set llm3 := (lookupL newAttrs "skills").dedup with hllm3
  set I3 := llm3.foldl (attrStep cfg now "skills" cs3) (cs3, I2.2.1, I2.2.2) with hI3
  have hra : (processAttributes cfg now oldAttrs newAttrs curProps).1
      = [("personality_tags", I1.1), ("hobbies", I2.1), ("skills", I3.1)] := rfl
  have hprops : (processAttributes cfg now oldAttrs newAttrs curProps).2
      = I3.2.2.foldl
          (carryStep [("personality_tags", I1.1), ("hobbies", I2.1), ("skills", I3.1)]
            (I3.2.1.map (fun p => mkKey p.category p.value))) I3.2.1 := rfl
  have hl1 : lookupL [("personality_tags", I1.1), ("hobbies", I2.1), ("skills", I3.1)]
      "personality_tags" = I1.1 := by simp [lookupL, aget]
  have hl2 : lookupL [("personality_tags", I1.1), ("hobbies", I2.1), ("skills", I3.1)]
      "hobbies" = I2.1 := by simp [lookupL, aget]
  have hl3 : lookupL [("personality_tags", I1.1), ("hobbies", I2.1), ("skills", I3.1)]
      "skills" = I3.1 := by simp [lookupL, aget]
  obtain ⟨hA1pm, hA1fl, hA1np⟩ := attrStep_foldl_inv cfg now "personality_tags" cs1
    llm1 cs1 [] pm0 (List.nodup_dedup _) (fun x _ h => h) hpm0
  obtain ⟨hA2pm, hA2fl, hA2np⟩ := attrStep_foldl_inv cfg now "hobbies" cs2
    llm2 cs2 I1.2.1 I1.2.2 (List.nodup_dedup _) (fun x _ h => h) hA1pm
  obtain ⟨hA3pm, hA3fl, hA3np⟩ := attrStep_foldl_inv cfg now "skills" cs3
    llm3 cs3 I2.2.1 I2.2.2 (List.nodup_dedup _) (fun x _ h => h) hA2pm
  have hgood : ∀ q ∈ I3.2.1, q.category ∈ attrCategories →
      q.value ∉ lookupL [("personality_tags", I1.1), ("hobbies", I2.1), ("skills", I3.1)]
        q.category := by
    intro q hq hqc
    have hqcol : ':' ∉ q.category.data := attrCategories_colon_free q.category hqc
    rcases hA3np q hq with h2 | ⟨it, hit, hcs, hk, hfin⟩
    · rcases hA2np q h2 with h1 | ⟨it, hit, hcs, hk, hfin⟩
      · rcases hA1np q h1 with h0 | ⟨it, hit, hcs, hk, hfin⟩
        · simp at h0
        · obtain ⟨hcat, hval⟩ := mkKey_inj hqcol (by decide) hk
          rw [hcat, hl1, hval]
          exact hfin
      · obtain ⟨hcat, hval⟩ := mkKey_inj hqcol (by decide) hk
        rw [hcat, hl2, hval]
        exact hfin
    · obtain ⟨hcat, hval⟩ := mkKey_inj hqcol (by decide) hk
      rw [hcat, hl3, hval]
      exact hfin
  have hlookup_other : ∀ c : String, c ∉ attrCategories →
      lookupL [("personality_tags", I1.1), ("hobbies", I2.1), ("skills", I3.1)] c = [] := by
    intro c hc
    have h1 : c ≠ "personality_tags" := fun h => hc (by rw [h]; decide)
    have h2 : c ≠ "hobbies" := fun h => hc (by rw [h]; decide)
    have h3 : c ≠ "skills" := fun h => hc (by rw [h]; decide)
    simp only [lookupL, aget]
    rw [if_neg (fun h => h1 h.symm), if_neg (fun h => h2 h.symm),
      if_neg (fun h => h3 h.symm)]
    rfl
  have hpre_carry : ∀ q ∈ I3.2.1,
      q.value ∉ lookupL [("personality_tags", I1.1), ("hobbies", I2.1), ("skills", I3.1)]
        q.category := by
    intro q hq
    by_cases hqc : q.category ∈ attrCategories
    · exact hgood q hq hqc
    · rw [hlookup_other q.category hqc]
      simp
  intro q hq hqc
  rw [hprops] at hq
  rw [hra]
  exact carryStep_foldl_good
    [("personality_tags", I1.1), ("hobbies", I2.1), ("skills", I3.1)]
    (I3.2.1.map (fun p => mkKey p.category p.value)) I3.2.2 I3.2.1 hpre_carry q hq


/-- C8: for every pair of input profiles (including ones that already violate
the invariant), the profile returned by `validate_update` satisfies mutual
exclusion between proposed and confirmed state: no `(category, value)` pair
appears both in the returned `pending_proposals` and in the corresponding
returned attribute list (`personality_tags`, `hobbies` or `skills`). -/
theorem guardian_proposed_confirmed_exclusive (cfg : GuardConfig)
    (cur new : Profile) (texts now : String) (q : Proposal)
    (hq : q ∈ (validateUpdate cfg cur new texts now).1.pendingProposals)
    (hqc : q.category ∈ attrCategories) :
    q.value ∉ lookupL (validateUpdate cfg cur new texts now).1.attributes
      q.category := by
  have h1 : (validateUpdate cfg cur new texts now).1.pendingProposals
      = (processAttributes cfg now cur.attributes new.attributes
          cur.pendingProposals).2 := rfl
  have h2 : (validateUpdate cfg cur new texts now).1.attributes
      = (processAttributes cfg now cur.attributes new.attributes
          cur.pendingProposals).1 := rfl
  rw [h2]
  exact processAttributes_exclusive cfg now cur.attributes new.attributes
    cur.pendingProposals q (h1 ▸ hq) hqc

/-- C8 witness: a carried-forward pending hobby is indeed not in the
confirmed hobbies of the validated profile. -/
theorem guardian_proposed_confirmed_exclusive_witness :
    ("唱歌" : String) ∉ lookupL (validateUpdate {}
        ⟨[], [], [], ⟨[], []⟩, [Proposal.mk "hobbies" "唱歌" 1 "t0" "t0"], none, none⟩
        emptyProfile "" "t").1.attributes "hobbies" :=
  guardian_proposed_confirmed_exclusive {}
    ⟨[], [], [], ⟨[], []⟩, [Proposal.mk "hobbies" "唱歌" 1 "t0" "t0"], none, none⟩
    emptyProfile "" "t" (Proposal.mk "hobbies" "唱歌" 1 "t0" "t0")
    (by decide) (by decide)

/-- C7 witness: the scenario instantiated with concrete profiles. -/
theorem guardian_preference_conflict_witness :
    lookupL (validateUpdate {}
        ⟨[], [], [("likes", ["喜欢猫"])], ⟨[], []⟩, [], none, none⟩
        ⟨[], [], [("likes", ["讨厌猫"])], ⟨[], []⟩, [], none, none⟩ "" "t").1.preferences
        "likes" = ["喜欢猫"]
    ∧ "讨厌猫" ∉ lookupL (validateUpdate {}
        ⟨[], [], [("likes", ["喜欢猫"])], ⟨[], []⟩, [], none, none⟩
        ⟨[], [], [("likes", ["讨厌猫"])], ⟨[], []⟩, [], none, none⟩ "" "t").1.preferences
        "likes"
    ∧ (validateUpdate {}
        ⟨[], [], [("likes", ["喜欢猫"])], ⟨[], []⟩, [], none, none⟩
        ⟨[], [], [("likes", ["讨厌猫"])], ⟨[], []⟩, [], none, none⟩ "" "t").2.map
        (fun c => (c.ctype, c.category, c.oldValue, c.newValue, c.conflictType))
      = [("preference_conflict", "likes", "喜欢猫", "讨厌猫", "sentiment_conflict")] :=
  guardian_preference_conflict {} _ _ "" "t" (by decide) (by decide) (by decide)

/-! ### Guardian: interaction_stats (C9) -/

/-- C9 counterexample: with empty current `interaction_stats` and an
LLM-proposed non-empty value, the validated stats equal the proposal, not
the (empty) current value — the claim "always carried over verbatim,
including when the current stats are empty or absent" is false on the code,
which only copies the current stats when they are non-empty
(`if old_stats:`). -/
theorem interaction_stats_counterexample :
    (validateUpdate {} emptyProfile
        ⟨[], [], [], ⟨[("msg_count", 5)], []⟩, [], none, none⟩ "" "t").1.socialGraph.interactionStats
      = [("msg_count", 5)]
    ∧ emptyProfile.socialGraph.interactionStats = []
    ∧ (validateUpdate {} emptyProfile
        ⟨[], [], [], ⟨[("msg_count", 5)], []⟩, [], none, none⟩ "" "t").1.socialGraph.interactionStats
      ≠ emptyProfile.socialGraph.interactionStats := by
  decide

/-- C9 (amended): whenever the current
`social_graph.interaction_stats` is non-empty, it is carried over verbatim
into the validated profile regardless of the LLM proposal; when it is empty
or absent the proposed value is kept. -/
theorem interaction_stats_nonempty_carryover (cfg : GuardConfig)
    (cur new : Profile) (texts now : String)
    (h : cur.socialGraph.interactionStats ≠ []) :
    (validateUpdate cfg cur new texts now).1.socialGraph.interactionStats
      = cur.socialGraph.interactionStats := by
  have hs : (validateUpdate cfg cur new texts now).1.socialGraph.interactionStats
      = if cur.socialGraph.interactionStats ≠ [] then cur.socialGraph.interactionStats
        else new.socialGraph.interactionStats := rfl
  rw [hs, if_pos h]

/-- C9 witness: a non-empty current counter survives a conflicting
proposal. -/
theorem interaction_stats_nonempty_carryover_witness :
    (validateUpdate {} ⟨[], [], [], ⟨[("msg_count", 3)], []⟩, [], none, none⟩
        ⟨[], [], [], ⟨[("msg_count", 99)], []⟩, [], none, none⟩ "" "t").1.socialGraph.interactionStats
      = [("msg_count", 3)] :=
  interaction_stats_nonempty_carryover {} _ _ "" "t" (by decide)

/-! ### Delete undo (C10) -/

/-- C10: calling `undo_last_delete` with an empty or missing delete history
fails without touching the history or the external stores; and whenever the
undo fails (any restore step raised), the delete history is exactly what it
was before the call — the popped record was reinserted at the front, so the
undo can be retried. -/
theorem undo_failure_keeps_record {σ ε : Type} (ops : UndoOps σ ε)
    (hist : List (String × List DeleteRecord)) (uid : String) (ext : σ) :
    ((aget hist uid = none ∨ aget hist uid = some []) →
      undoLastDelete ops hist uid ext = ⟨false, hist, ext⟩)
    ∧ ((undoLastDelete ops hist uid ext).success = false →
      (undoLastDelete ops hist uid ext).hist = hist) := by
  constructor
  · intro h
    rcases h with h | h <;> · unfold undoLastDelete; rw [h]
  · intro hf
    cases hag : aget hist uid with
    | none => unfold undoLastDelete; rw [hag]
    | some l =>
      cases l with
      | nil => unfold undoLastDelete; rw [hag]
      | cons r rest =>
        have hcollapse : aset (aset hist uid rest) uid (r :: rest) = hist := by
          rw [aset_aset, aset_self hist uid (r :: rest) hag]
        unfold undoLastDelete at hf ⊢
        rw [hag] at hf ⊢
        cases h1 : ops.saveMemoryIndex r ext with
        | error e => simp only [h1, hcollapse]
        | ok s1 =>
          cases h2 : ops.ensureChroma s1 with
          | error e => simp only [h1, h2, hcollapse]
          | ok s2 =>
            cases h3 : (match r.vectorData with
              | some vd =>
                if vd.embedding ≠ [] then ops.chromaAddWithEmbedding r vd.embedding s2
                else ops.chromaAddRegenerated r s2
              | none => ops.chromaAddRegenerated r s2) with
            | error e => simp only [h1, h2, h3, hcollapse]
            | ok s3 =>
              exfalso
              simp only [h1, h2, h3] at hf
              exact absurd hf (by decide)

/-- C10 witness: an empty history fails untouched, and a failing first
restore step reports failure with the record still at the front of the
history. -/
theorem undo_failure_keeps_record_witness :
    (undoLastDelete (σ := ℕ) (ε := Unit)
        ⟨fun _ _ => .error (), fun s => .ok s, fun _ _ s => .ok s, fun _ s => .ok s,
         fun _ s => .ok s⟩ [] "u" 0 = ⟨false, [], 0⟩)
    ∧ ((undoLastDelete (σ := ℕ) (ε := Unit)
        ⟨fun _ _ => .error (), fun s => .ok s, fun _ _ s => .ok s, fun _ s => .ok s,
         fun _ s => .ok s⟩
        [("u", [⟨"id1", "s", none, none, "private", "u", "t", 100, false, [], none⟩])]
        "u" 0).hist
      = [("u", [⟨"id1", "s", none, none, "private", "u", "t", 100, false, [], none⟩])]) :=
  ⟨(undo_failure_keeps_record _ [] "u" 0).1 (Or.inl rfl),
   (undo_failure_keeps_record _
      [("u", [⟨"id1", "s", none, none, "private", "u", "t", 100, false, [], none⟩])]
      "u" 0).2 rfl⟩

/-! ### End-to-end retrieval fixtures and theorems (C1, C3) -/

theorem watermelon_keywords :
    generateQueryKeywords defaultRetrievalConfig "西瓜" = ["西瓜"] := by decide

theorem watermelon_score_match :
    calcKeywordScore defaultRetrievalConfig "西瓜" "他说他喜欢西瓜" watermelonStats
      = 8096/1175 := by
  simp only [calcKeywordScore, watermelon_keywords]
  rw [if_neg (by simp)]
  have h1 : countKeywordMatches "西瓜" (docTokensEn "他说他喜欢西瓜")
      (docGramsZh defaultRetrievalConfig "他说他喜欢西瓜") = 1 := by decide
  have h2 : max 1 ((docTokensEn "他说他喜欢西瓜").dedup.length
      + (docGramsZh defaultRetrievalConfig "他说他喜欢西瓜").length) = 15 := by decide
  have h3 : watermelonStats.docFreq "西瓜" = 1 := by decide
  have h4 : watermelonStats.totalDocs = 5 := by decide
  simp only [List.foldl, h1, h2, h3, h4]
  norm_num [bmK1, bmB, bmAvgDocLen]

theorem watermelon_score_zero (t : String)
    (h1 : countKeywordMatches "西瓜" (docTokensEn t)
      (docGramsZh defaultRetrievalConfig t) = 0) :
    calcKeywordScore defaultRetrievalConfig "西瓜" t watermelonStats = 0 := by
  by_cases ht : t = ""
  · simp only [calcKeywordScore, watermelon_keywords]
    rw [if_pos (Or.inr ht)]
  · simp only [calcKeywordScore, watermelon_keywords]
    rw [if_neg (by simp [ht])]
    simp only [List.foldl, h1]
    norm_num

theorem retrieval_cex_head :
    (retrieveRanked defaultRetrievalConfig "西瓜" retrievalCexHits 3).head?.map
      (fun p => p.1.indexId) = some "m1" := by
  have e1 : defaultRetrievalConfig.enableNgramRank = true := rfl
  have e2 : defaultRetrievalConfig.enableKeywordBoost = true := rfl
  have e3 : defaultRetrievalConfig.similarityThreshold = 3/2 := rfl
  have e4 : defaultRetrievalConfig.keywordWeight = 1/2 := rfl
  have hstats : mkCorpusStats defaultRetrievalConfig
      ["今天天气不错", "他在学习编程", "他养了一只猫", "他喜欢打篮球", "他说他喜欢西瓜"]
      = watermelonStats := rfl
  have s1 : calcKeywordScore defaultRetrievalConfig "西瓜" "今天天气不错"
      watermelonStats = 0 := watermelon_score_zero _ (by decide)
  have s2 : calcKeywordScore defaultRetrievalConfig "西瓜" "他在学习编程"
      watermelonStats = 0 := watermelon_score_zero _ (by decide)
  have s3 : calcKeywordScore defaultRetrievalConfig "西瓜" "他养了一只猫"
      watermelonStats = 0 := watermelon_score_zero _ (by decide)
  have s4 : calcKeywordScore defaultRetrievalConfig "西瓜" "他喜欢打篮球"
      watermelonStats = 0 := watermelon_score_zero _ (by decide)
  norm_num [retrieveRanked, retrievalCexHits, e1, e2, e3, e4, watermelon_keywords,
    hstats, s1, s2, s3, s4, watermelon_score_match,
    rrfFuse, rrfScore, vectorRank, keywordRank, sortedByVector, sortedByKeyword,
    distOf, scoreOf, sortS, insertS, idxOf, rrfK, List.filter, List.getD]

/-- C1 counterexample: in the documented five-summary scenario, with the
matching summary inside the distance threshold but farthest by vector
distance, default configuration ranks a non-matching summary (`m1`) first,
so the matching summary (`m5`) is not first. -/
theorem retrieval_watermelon_counterexample :
    containsSub "他说他喜欢西瓜" "喜欢西瓜" = true
    ∧ (["今天天气不错", "他在学习编程", "他养了一只猫", "他喜欢打篮球"].all
        (fun s => !containsSub s "西瓜")) = true
    ∧ (∀ h ∈ retrievalCexHits,
        h.distance ≤ defaultRetrievalConfig.similarityThreshold)
    ∧ (retrieveRanked defaultRetrievalConfig "西瓜" retrievalCexHits 3).head?.map
        (fun p => p.1.indexId) ≠ some "m5" := by
  refine ⟨by decide, by decide, ?_, ?_⟩
  · intro h hh
    fin_cases hh <;> norm_num [defaultRetrievalConfig]
  · rw [retrieval_cex_head]
    decide

/-- C1 (amended): in the same scenario, for every assignment of vector
distances within the threshold in which the matching summary is strictly
closest (vector rank 1), default configuration ranks the matching summary
first. -/
theorem retrieval_watermelon_first_when_closest (d1 d2 d3 d4 d5 : ℚ)
    (h1 : d1 ≤ 3/2) (h2 : d2 ≤ 3/2) (h3 : d3 ≤ 3/2) (h4 : d4 ≤ 3/2)
    (h5 : d5 ≤ 3/2) (hm1 : d5 < d1) (hm2 : d5 < d2) (hm3 : d5 < d3)
    (hm4 : d5 < d4) :
    (retrieveRanked defaultRetrievalConfig "西瓜"
      [⟨"m1", "今天天气不错", d1⟩, ⟨"m2", "他在学习编程", d2⟩,
       ⟨"m3", "他养了一只猫", d3⟩, ⟨"m4", "他喜欢打篮球", d4⟩,
       ⟨"m5", "他说他喜欢西瓜", d5⟩] 3).head?.map (fun p => p.1.indexId)
      = some "m5" := by
  have e1 : defaultRetrievalConfig.enableNgramRank = true := rfl
  have e2 : defaultRetrievalConfig.enableKeywordBoost = true := rfl
  have e3 : defaultRetrievalConfig.similarityThreshold = 3/2 := rfl
  have e4 : defaultRetrievalConfig.keywordWeight = 1/2 := rfl
  have hstats : mkCorpusStats defaultRetrievalConfig
      ["今天天气不错", "他在学习编程", "他养了一只猫", "他喜欢打篮球", "他说他喜欢西瓜"]
      = watermelonStats := rfl
  have s1 : calcKeywordScore defaultRetrievalConfig "西瓜" "今天天气不错"
      watermelonStats = 0 := watermelon_score_zero _ (by decide)
  have s2 : calcKeywordScore defaultRetrievalConfig "西瓜" "他在学习编程"
      watermelonStats = 0 := watermelon_score_zero _ (by decide)
  have s3 : calcKeywordScore defaultRetrievalConfig "西瓜" "他养了一只猫"
      watermelonStats = 0 := watermelon_score_zero _ (by decide)
  have s4 : calcKeywordScore defaultRetrievalConfig "西瓜" "他喜欢打篮球"
      watermelonStats = 0 := watermelon_score_zero _ (by decide)
  have hfilter : [ChromaHit.mk "m1" "今天天气不错" d1, ChromaHit.mk "m2" "他在学习编程" d2,
      ChromaHit.mk "m3" "他养了一只猫" d3, ChromaHit.mk "m4" "他喜欢打篮球" d4,
      ChromaHit.mk "m5" "他说他喜欢西瓜" d5].filter
        (fun h => decide (h.distance ≤ defaultRetrievalConfig.similarityThreshold))
      = [ChromaHit.mk "m1" "今天天气不错" d1, ChromaHit.mk "m2" "他在学习编程" d2,
      ChromaHit.mk "m3" "他养了一只猫" d3, ChromaHit.mk "m4" "他喜欢打篮球" d4,
      ChromaHit.mk "m5" "他说他喜欢西瓜" d5] := by
    rw [e3]
    simp only [List.filter_cons, List.filter_nil, decide_eq_true h1,
      decide_eq_true h2, decide_eq_true h3, decide_eq_true h4, decide_eq_true h5,
      eq_self_iff_true, if_true]
  simp only [retrieveRanked, e1, e2, e4, if_pos, hfilter, List.map,
    watermelon_keywords, hstats, s1, s2, s3, s4, watermelon_score_match]
  rw [rrfFuse_top ["西瓜"] (1/2) 3
    [MemItem.mk "m1" "今天天气不错" d1 0, MemItem.mk "m2" "他在学习编程" d2 0,
     MemItem.mk "m3" "他养了一只猫" d3 0, MemItem.mk "m4" "他喜欢打篮球" d4 0,
     MemItem.mk "m5" "他说他喜欢西瓜" d5 (8096/1175)] 4
    (by norm_num) (by norm_num) (by norm_num) (by norm_num) (by norm_num)
    (by decide) ?_ ?_]
  · rfl
  · intro j hj hne
    have hj5 : j < 5 := hj
    interval_cases j
    · exact hm1
    · exact hm2
    · exact hm3
    · exact hm4
    · exact absurd rfl hne
  · intro j hj hne
    have hj5 : j < 5 := hj
    interval_cases j
    · show (0 : ℚ) < 8096/1175
      norm_num
    · show (0 : ℚ) < 8096/1175
      norm_num
    · show (0 : ℚ) < 8096/1175
      norm_num
    · show (0 : ℚ) < 8096/1175
      norm_num
    · exact absurd rfl hne

/-- C1 (amended) witness: matching summary closest at distance 0, the rest
at distance 1. -/
theorem retrieval_watermelon_first_when_closest_witness :
    (retrieveRanked defaultRetrievalConfig "西瓜"
      [⟨"m1", "今天天气不错", 1⟩, ⟨"m2", "他在学习编程", 1⟩,
       ⟨"m3", "他养了一只猫", 1⟩, ⟨"m4", "他喜欢打篮球", 1⟩,
       ⟨"m5", "他说他喜欢西瓜", 0⟩] 3).head?.map (fun p => p.1.indexId)
      = some "m5" :=
  retrieval_watermelon_first_when_closest 1 1 1 1 0
    (by norm_num) (by norm_num) (by norm_num) (by norm_num) (by norm_num)
    zero_lt_one zero_lt_one zero_lt_one zero_lt_one

/-- C3 witness: the scorer agrees with the specification formula on the
watermelon fixture. -/
theorem keyword_score_matches_spec_formula_witness :
    calcKeywordScore defaultRetrievalConfig "西瓜" "他说他喜欢西瓜" watermelonStats
      = specKeywordScore defaultRetrievalConfig "西瓜" "他说他喜欢西瓜"
          watermelonStats :=
  keyword_score_matches_spec_formula defaultRetrievalConfig "西瓜" "他说他喜欢西瓜"
    watermelonStats (by decide)

/-- C2 witness: both branches and both rank facts at a two-candidate
fixture. -/
theorem rrf_hybrid_ranking_witness :
    (rrfFuse true ["x"] (1/2) 5
        [MemItem.mk "a" "" 0 1, MemItem.mk "b" "" 1 0]
      = (sortS (fun a b => decide (b.2 < a.2))
          ((List.range ([MemItem.mk "a" "" 0 1, MemItem.mk "b" "" 1 0]).length).map
            (fun i => (([MemItem.mk "a" "" 0 1, MemItem.mk "b" "" 1 0]).getD i default,
              (1 - (1/2 : ℚ)) / (60 + (vectorRank
                  [MemItem.mk "a" "" 0 1, MemItem.mk "b" "" 1 0] i : ℚ))
                + (1/2 : ℚ) / (60 + (keywordRank
                  [MemItem.mk "a" "" 0 1, MemItem.mk "b" "" 1 0] i : ℚ)))))).take 5)
    ∧ (rrfFuse false ["x"] (1/2) 5 [MemItem.mk "a" "" 0 1, MemItem.mk "b" "" 1 0]
      = (sortS (fun a b => decide (a.1.distance < b.1.distance))
          (([MemItem.mk "a" "" 0 1, MemItem.mk "b" "" 1 0]).map
            (fun x => (x, max 0 (1 - x.distance / 2))))).take 5)
    ∧ vectorRank [MemItem.mk "a" "" 0 1, MemItem.mk "b" "" 1 0] 0 = 1
    ∧ keywordRank [MemItem.mk "a" "" 0 1, MemItem.mk "b" "" 1 0] 0 = 1 :=
  ⟨(rrf_hybrid_ranking true ["x"] (1/2) 5 _).1 ⟨rfl, by decide, by decide⟩,
   (rrf_hybrid_ranking false ["x"] (1/2) 5 _).2.1 (by simp),
   (rrf_hybrid_ranking true ["x"] (1/2) 5 _).2.2.1 0 (by decide)
     (fun j hj hne => by
       have hj2 : j < 2 := hj
       interval_cases j
       · exact absurd rfl hne
       · exact zero_lt_one),
   (rrf_hybrid_ranking true ["x"] (1/2) 5 _).2.2.2 0 (by decide)
     (fun j hj hne => by
       have hj2 : j < 2 := hj
       interval_cases j
       · exact absurd rfl hne
       · exact zero_lt_one)⟩

end Engram
